import Mathlib

/-!
# Formal model of the dns repository's resource-record codec and zone lexer

Shallow embedding of `rr/rr.go` and `zone/scanner.l`.

Conventions of the embedding:

* Go byte slices and Go strings are `List Nat`, each element one byte value.
* A Go decode call `Decode(b []byte, pos *int)` is modelled as a function on
  the remaining slice `b.drop pos` returning `Except String (value × Nat)`,
  the `Nat` being the number of bytes consumed.  Every decoder in the source
  reads the buffer only at and after the cursor, so this is equivalent to
  the source's cursor-threading convention.
* A Go `error` result is `Except.error`; a Go `panic` or `log.Fatalf` is
  modelled by `Option`-`none` (or an `Except.error` whose message starts
  with `panic:`) where the distinction matters.
-/

namespace DnsRR

/-- Source constant `asserts` (rr.go line 23): assertion checks are
compiled out in the shipped source. -/
def asserts : Bool := false

/-- Modelled from the spec: the external wire-primitive codec's
`dns.Octet.Encode` - one byte, the value truncated to 8 bits exactly as
Go's `byte(..)` conversion does. -/
def octetEnc (n : Nat) : List Nat := [n % 256]

/-- Modelled from the spec: `dns.Octets2.Encode`, a fixed-width big-endian
16-bit integer. -/
def octets2Enc (n : Nat) : List Nat := [n / 256 % 256, n % 256]

/-- Modelled from the spec: `dns.Octets4.Encode`, a fixed-width big-endian
32-bit integer. -/
def octets4Enc (n : Nat) : List Nat :=
  [n / 16777216 % 256, n / 65536 % 256, n / 256 % 256, n % 256]

/-- Modelled from the spec: `dns.Octet.Decode` - one byte from the
remaining slice, failing on buffer underflow without advancing. -/
def octetDec : List Nat → Except String (Nat × Nat)
  | [] => .error "Octet.Decode - buffer underflow"
  | b :: _ => .ok (b, 1)

/-- Modelled from the spec: `dns.Octets2.Decode`, big-endian. -/
def octets2Dec : List Nat → Except String (Nat × Nat)
  | b0 :: b1 :: _ => .ok (b0 * 256 + b1, 2)
  | _ => .error "Octets2.Decode - buffer underflow"

/-- Modelled from the spec: `dns.Octets4.Decode`, big-endian. -/
def octets4Dec : List Nat → Except String (Nat × Nat)
  | b0 :: b1 :: b2 :: b3 :: _ => .ok (((b0 * 256 + b1) * 256 + b2) * 256 + b3, 4)
  | _ => .error "Octets4.Decode - buffer underflow"

/-- Modelled from the spec: `dns.CharString.Encode`, a length-prefixed
character string (one length byte, then the bytes). -/
def charStringEnc (s : List Nat) : List Nat := s.length % 256 :: s

/-- Modelled from the spec: `dns.CharString.Decode`. -/
def charStringDec : List Nat → Except String (List Nat × Nat)
  | [] => .error "CharString.Decode - buffer underflow"
  | n :: rest =>
    if rest.length < n then .error "CharString.Decode - buffer underflow"
    else .ok (rest.take n, n + 1)

/-- Reinterpret a Go `int32` value as the `uint32` that `dns.Octets4`
encodes (two's complement). -/
def int32ToWire (i : Int) : Nat := (i % 4294967296).toNat

/-- Reinterpret a decoded `uint32` as a Go `int32` (two's complement), as
in the source's `rr.TTL = int32(ttl)`. -/
def wireToInt32 (n : Nat) : Int :=
  if n < 2147483648 then (n : Int) else (n : Int) - 4294967296

/-- The wire form of a sequence of domain-name labels: each label is
length-prefixed. -/
def encLabels (ls : List (List Nat)) : List Nat :=
  (ls.map (fun l => l.length :: l)).flatten

/-- Modelled from the spec: `dns.DomainName.Encode`, uncompressed - the
dot-separated labels of the name, each length-prefixed, terminated by a
zero byte (the root name encodes as the bare zero byte).  Compression is
an encoder option the model does not exercise. -/
def dnEncode (nm : List Nat) : List Nat :=
  if nm = [] then [0] else encLabels (nm.splitOn 46) ++ [0]

/-- Modelled from the spec: `dns.DomainName.Decode` - read length-prefixed
labels until the zero terminator and join them with dots.  Label lengths
above 63 (the compression-pointer space) are not modelled and fail.  The
fuel argument only bounds the number of labels; `dnDec` supplies enough
for any input. -/
def dnDecAux : Nat → List Nat → List (List Nat) → Nat → Except String (List Nat × Nat)
  | 0, _, _, _ => .error "DomainName.Decode - malformed"
  | _ + 1, [], _, _ => .error "DomainName.Decode - buffer underflow"
  | fuel + 1, n :: rest, acc, consumed =>
    if n = 0 then .ok (List.intercalate [46] acc.reverse, consumed + 1)
    else if n ≤ 63 then
      if rest.length < n then .error "DomainName.Decode - buffer underflow"
      else dnDecAux fuel (rest.drop n) (rest.take n :: acc) (consumed + 1 + n)
    else .error "DomainName.Decode - unsupported label"

/-- Modelled from the spec: `dns.DomainName.Decode` on a remaining slice. -/
def dnDec (rem : List Nat) : Except String (List Nat × Nat) :=
  dnDecAux (rem.length + 1) rem [] 0

/-- A legal label: nonempty and at most 63 octets. -/
def validLabel (l : List Nat) : Prop := l ≠ [] ∧ l.length ≤ 63

/-- A name the uncompressed wire codec round-trips: the root name, or a
dot-separated sequence of legal labels. -/
def validName (nm : List Nat) : Prop :=
  nm = [] ∨ ∀ l ∈ nm.splitOn 46, validLabel l

theorem octetDec_enc (n : Nat) (h : n < 256) (rest : List Nat) :
    octetDec (octetEnc n ++ rest) = .ok (n, 1) := by
  simp [octetEnc, octetDec, Nat.mod_eq_of_lt h]

theorem octets2Dec_enc (n : Nat) (h : n < 65536) (rest : List Nat) :
    octets2Dec (octets2Enc n ++ rest) = .ok (n, 2) := by
  simp only [octets2Enc, List.cons_append, List.nil_append, octets2Dec, Except.ok.injEq,
    Prod.mk.injEq, and_true]
  omega

theorem octets4Dec_enc (n : Nat) (h : n < 4294967296) (rest : List Nat) :
    octets4Dec (octets4Enc n ++ rest) = .ok (n, 4) := by
  simp only [octets4Enc, List.cons_append, List.nil_append, octets4Dec, Except.ok.injEq,
    Prod.mk.injEq, and_true]
  omega

theorem charStringDec_enc (s : List Nat) (h : s.length ≤ 255) (rest : List Nat) :
    charStringDec (charStringEnc s ++ rest) = .ok (s, s.length + 1) := by
  have hm : s.length % 256 = s.length := Nat.mod_eq_of_lt (by omega)
  simp [charStringEnc, charStringDec, hm, List.take_left]

theorem wireToInt32_int32ToWire (i : Int) (hlo : -2147483648 ≤ i) (hhi : i < 2147483648) :
    wireToInt32 (int32ToWire i) = i := by
  unfold int32ToWire wireToInt32
  have h0 : (0 : Int) ≤ i % 4294967296 := Int.emod_nonneg i (by decide)
  have h2 : ((i % 4294967296).toNat : Int) = i % 4294967296 := Int.toNat_of_nonneg h0
  split <;> omega

theorem length_le_encLabels (ls : List (List Nat)) : ls.length ≤ (encLabels ls).length := by
  induction ls with
  | nil => simp [encLabels]
  | cons l t ih =>
    simp only [encLabels, List.map_cons, List.flatten_cons, List.length_append,
      List.length_cons] at *
    omega

theorem dnDecAux_encLabels (ls : List (List Nat)) (hls : ∀ l ∈ ls, validLabel l) :
    ∀ fuel acc consumed post, ls.length < fuel →
      dnDecAux fuel (encLabels ls ++ 0 :: post) acc consumed
        = .ok (List.intercalate [46] (acc.reverse ++ ls),
               consumed + (encLabels ls).length + 1) := by
  induction ls with
  | nil =>
    intro fuel acc consumed post hfuel
    match fuel, hfuel with
    | fuel + 1, _ => simp [encLabels, dnDecAux]
  | cons l t ih =>
    intro fuel acc consumed post hfuel
    match fuel, hfuel with
    | fuel + 1, hfuel =>
      obtain ⟨hne, hlen⟩ := hls l (by simp)
      have hlpos : l.length ≠ 0 := by simpa using hne
      have hshape : encLabels (l :: t) ++ 0 :: post
          = l.length :: (l ++ (encLabels t ++ 0 :: post)) := by
        simp [encLabels]
      rw [hshape, dnDecAux, if_neg hlpos, if_pos hlen,
        if_neg (by simp only [List.length_append]; omega)]
      rw [List.drop_left, List.take_left]
      rw [ih (fun x hx => hls x (by simp [hx])) fuel (l :: acc) (consumed + 1 + l.length) post
        (by simp at hfuel ⊢; omega)]
      simp only [List.reverse_cons, List.append_assoc, List.singleton_append, encLabels,
        List.map_cons, List.flatten_cons, List.length_append, List.length_cons]
      congr 1
      congr 1
      omega

theorem dnDec_enc (nm : List Nat) (h : validName nm) (post : List Nat) :
    dnDec (dnEncode nm ++ post) = .ok (nm, (dnEncode nm).length) := by
  rcases h with hroot | hlabels
  · subst hroot
    simp [dnEncode, dnDec, dnDecAux, List.intercalate]
  · by_cases hnil : nm = []
    · subst hnil
      simp [dnEncode, dnDec, dnDecAux, List.intercalate]
    · have henc : dnEncode nm = encLabels (nm.splitOn 46) ++ [0] := by
        simp [dnEncode, hnil]
      have hshape : dnEncode nm ++ post = encLabels (nm.splitOn 46) ++ 0 :: post := by
        rw [henc, List.append_assoc, List.singleton_append]
      rw [hshape]
      unfold dnDec
      rw [dnDecAux_encLabels (nm.splitOn 46) hlabels _ [] 0 post
        (by
          have h1 := length_le_encLabels (nm.splitOn 46)
          simp only [List.length_append, List.length_cons]
          omega)]
      rw [henc]
      simp only [List.reverse_nil, List.nil_append, List.intercalate_splitOn,
        List.length_append, List.length_cons, List.length_nil, Nat.zero_add]

/-- Go `strings.ToLower`, restricted to ASCII bytes (the byte values that
occur in domain names in this codec). -/
def lower (s : List Nat) : List Nat :=
  s.map fun c => if 65 ≤ c ∧ c ≤ 90 then c + 32 else c

/-- The 4-in-6 marker bytes of the Go standard library's 16-byte IPv4
representation (`net.v4InV6Prefix`). -/
def v4pfx : List Nat := [0, 0, 0, 0, 0, 0, 0, 0, 0, 0, 255, 255]

/-- Modelled from the Go standard library: `net.IP.To4`. -/
def ipTo4 (ip : List Nat) : Option (List Nat) :=
  if ip.length = 4 then some ip
  else if ip.length = 16 ∧ ip.take 12 = v4pfx then some (ip.drop 12)
  else none

/-- Modelled from the Go standard library: `net.IPv4` - builds the 16-byte
4-in-6 representation. -/
def goIPv4 (b0 b1 b2 b3 : Nat) : List Nat := v4pfx ++ [b0, b1, b2, b3]

/-- Modelled from the Go standard library: `net.IP.To16`. -/
def ipTo16 (ip : List Nat) : Option (List Nat) :=
  if ip.length = 4 then some (v4pfx ++ ip)
  else if ip.length = 16 then some ip
  else none

/-- Hex digit character. -/
def hexDigit (n : Nat) : Char :=
  if n < 10 then Char.ofNat (48 + n) else Char.ofNat (87 + n)

/-- A 16-bit group as (unpadded) lowercase hex. -/
def hexGroup (n : Nat) : String :=
  if n = 0 then "0" else String.mk (Nat.toDigits 16 n)

/-- Big-endian 16-bit groups of a 16-byte address. -/
def groups16 : List Nat → List Nat
  | b0 :: b1 :: rest => (b0 * 256 + b1) :: groups16 rest
  | _ => []

/-- Modelled from the Go standard library: `net.IP.String` - dotted quad
when the address narrows to 4 octets, colon-separated hex groups for other
16-byte addresses (rendered without `::` abbreviation, which preserves
equality of rendered strings), `"?"` otherwise.  `RR.Equal` compares A and
AAAA addresses through this function. -/
def ipStr (ip : List Nat) : String :=
  match ipTo4 ip with
  | some [b0, b1, b2, b3] =>
      toString b0 ++ "." ++ toString b1 ++ "." ++ toString b2 ++ "." ++ toString b3
  | _ =>
    if ip.length = 16 then String.intercalate ":" ((groups16 ip).map hexGroup)
    else "?"

/-- The RDATA variants of rr.go as a closed sum (spec §9: the Go
interface-plus-type-switch becomes a tagged union; the opaque `RDATA`
fallback is the `rdata` constructor).  Go `net.IP` values and Go strings
are byte lists. -/
inductive RData where
  | a (Address : List Nat)
  | aaaa (Address : List Nat)
  | cname (Name : List Nat)
  | dnskey (Flags Protocol Algorithm : Nat) (Key : List Nat)
  | ds (KeyTag Algorithm DigestType : Nat) (Digest : List Nat)
  | mx (Preference : Nat) (Exchange : List Nat)
  | nodata (T : Nat)
  | nxdomain
  | ns (NSDName : List Nat)
  | nsec3 (HashAlgorithm Flags Iterations : Nat) (Salt NextHashedOwnerName TypeBitMaps : List Nat)
  | nsec3param (HashAlgorithm Flags Iterations : Nat) (Salt : List Nat)
  | ptr (PTRDName : List Nat)
  | rrsig (TypeCovered Algorithm Labels : Nat) (TTL : Int) (Expiration Inception KeyTag : Nat)
      (SignerName Signature : List Nat)
  | soa (MName RName : List Nat) (Serial Refresh Retry Expire Minimum : Nat)
  | txt (S : List Nat)
  | rdata (D : List Nat)
  deriving DecidableEq, Repr

/-- `ip4.Encode` (rr.go 310-318), parameterized by the assertion flag: the
address is narrowed with `To4`; when narrowing fails the function panics
(`none`) if assertions are on, and otherwise appends the `nil` slice -
that is, nothing at all. -/
def ip4Encode (assertsOn : Bool) (ip : List Nat) : Option (List Nat) :=
  match ipTo4 ip with
  | some b4 => some b4
  | none => if assertsOn then none else some []

/-- `ip6.Encode` (rr.go 335-343), parameterized by the assertion flag. -/
def ip6Encode (assertsOn : Bool) (ip : List Nat) : Option (List Nat) :=
  match ipTo16 ip with
  | some b16 => some b16
  | none => if assertsOn then none else some []

/-- `NSEC3PARAM.Encode` (rr.go 533-542).  The `asserts && len(Salt) > 255`
panic is compiled out (`asserts = false`), so the salt length byte is
truncated like any Go `byte(..)` conversion. -/
def nsec3paramEnc (ha fl it : Nat) (salt : List Nat) : List Nat :=
  octetEnc ha ++ octetEnc fl ++ octets2Enc it ++ octetEnc salt.length ++ salt

/-- The per-variant `Encode` methods of rr.go (bytes appended to the wire
buffer).  With `asserts = false` a non-narrowable A/AAAA address appends
nothing (see `ip4Encode`). -/
def encodeRData : RData → List Nat
  | .a ip => (ip4Encode asserts ip).getD []
  | .aaaa ip => (ip6Encode asserts ip).getD []
  | .cname nm => dnEncode nm
  | .dnskey fl pr al key => octets2Enc fl ++ octetEnc pr ++ octetEnc al ++ key
  | .ds kt al dt dg => octets2Enc kt ++ octetEnc al ++ octetEnc dt ++ dg
  | .mx pref ex => octets2Enc pref ++ dnEncode ex
  | .nodata t => octets2Enc t
  | .nxdomain => []
  | .ns nm => dnEncode nm
  | .nsec3 ha fl it salt next bm =>
      nsec3paramEnc ha fl it salt ++ octets2Enc next.length ++ next ++ bm
  | .nsec3param ha fl it salt => nsec3paramEnc ha fl it salt
  | .ptr nm => dnEncode nm
  | .rrsig tc al lb ttl ex inc kt nm sig =>
      octets2Enc tc ++ octetEnc al ++ octetEnc lb ++ octets4Enc (int32ToWire ttl) ++
      octets4Enc ex ++ octets4Enc inc ++ octets2Enc kt ++ dnEncode nm ++ sig
  | .soa mn rn se re rt ex mi =>
      dnEncode mn ++ dnEncode rn ++ octets4Enc se ++ octets4Enc re ++
      octets4Enc rt ++ octets4Enc ex ++ octets4Enc mi
  | .txt s => charStringEnc s
  | .rdata d => d

/-- `A.Decode` via `ip4.Decode` (rr.go 321-330): four bytes, stored through
`net.IPv4` in the 16-byte 4-in-6 form. -/
def aDec : List Nat → Except String (RData × Nat)
  | b0 :: b1 :: b2 :: b3 :: _ => .ok (.a (goIPv4 b0 b1 b2 b3), 4)
  | _ => .error "ip4.Decode() - buffer underflow"

/-- `AAAA.Decode` via `ip6.Decode` (rr.go 346-356): copies 16 bytes. -/
def aaaaDec (rem : List Nat) : Except String (RData × Nat) :=
  if rem.length < 16 then .error "ip6.Decode() - buffer underflow"
  else .ok (.aaaa (rem.take 16), 16)

/-- `CNAME.Decode` (rr.go 82-85). -/
def cnameDec (rem : List Nat) : Except String (RData × Nat) := do
  let (nm, c) ← dnDec rem
  return (.cname nm, c)

/-- `DNSKEY.Decode` (rr.go 222-240): fixed fields, then the rest of the
slice as key material, which must be nonempty. -/
def dnskeyDec (rem : List Nat) : Except String (RData × Nat) := do
  let (fl, c1) ← octets2Dec rem
  let (pr, c2) ← octetDec (rem.drop c1)
  let (al, c3) ← octetDec (rem.drop (c1 + c2))
  let c := c1 + c2 + c3
  if rem.length - c = 0 then .error "(*DNSKEY).Decode: no key data"
  else return (.dnskey fl pr al (rem.drop c), rem.length)

/-- `DS.Decode` (rr.go 272-297): any digest type other than SHA-1 (code 1)
is a hard error; SHA-1 digests are exactly 20 octets on the wire. -/
def dsDec (rem : List Nat) : Except String (RData × Nat) := do
  let (kt, c1) ← octets2Dec rem
  let (al, c2) ← octetDec (rem.drop c1)
  let (dt, c3) ← octetDec (rem.drop (c1 + c2))
  let c := c1 + c2 + c3
  if dt = 1 then
    if c + 20 > rem.length then .error "DS.Decode - buffer underflow"
    else return (.ds kt al dt ((rem.drop c).take 20), c + 20)
  else .error "unsupported digest type"

/-- `MX.Decode` (rr.go 376-381). -/
def mxDec (rem : List Nat) : Except String (RData × Nat) := do
  let (pref, c1) ← octets2Dec rem
  let (ex, c2) ← dnDec (rem.drop c1)
  return (.mx pref ex, c1 + c2)

/-- `NODATA.Decode` (rr.go 399-401): the cached Type. -/
def nodataDec (rem : List Nat) : Except String (RData × Nat) := do
  let (t, c) ← octets2Dec rem
  return (.nodata t, c)

/-- `NXDOMAIN.Decode` (rr.go 416-418): empty wire form. -/
def nxdomainDec (_rem : List Nat) : Except String (RData × Nat) :=
  .ok (.nxdomain, 0)

/-- `NS.Decode` (rr.go 437-439). -/
def nsDec (rem : List Nat) : Except String (RData × Nat) := do
  let (nm, c) ← dnDec rem
  return (.ns nm, c)

/-- `NSEC3PARAM.Decode` (rr.go 545-567): fixed fields, then a one-byte
salt length and the salt. -/
def nsec3paramDec (rem : List Nat) :
    Except String ((Nat × Nat × Nat × List Nat) × Nat) := do
  let (ha, c1) ← octetDec rem
  let (fl, c2) ← octetDec (rem.drop c1)
  let (it, c3) ← octets2Dec (rem.drop (c1 + c2))
  let (n, c4) ← octetDec (rem.drop (c1 + c2 + c3))
  let c := c1 + c2 + c3 + c4
  if c + n > rem.length then .error "NSEC3PARAM.Decode() - buffer underflow"
  else return ((ha, fl, it, (rem.drop c).take n), c + n)

/-- `NSEC3.Decode` (rr.go 477-500): the NSEC3PARAM fields, a two-byte hash
length and the hash, then - relying on the caller slicing the buffer at
exactly the record boundary - the rest of the slice as the type bit maps. -/
def nsec3Dec (rem : List Nat) : Except String (RData × Nat) := do
  let ((ha, fl, it, salt), c1) ← nsec3paramDec rem
  let (n, c2) ← octets2Dec (rem.drop c1)
  let c := c1 + c2
  if c + n > rem.length then .error "rr.*NSEC3.Decode - buffer underflow"
  else return (.nsec3 ha fl it salt ((rem.drop c).take n) (rem.drop (c + n)), rem.length)

/-- `PTR.Decode` (rr.go 590-592). -/
def ptrDec (rem : List Nat) : Except String (RData × Nat) := do
  let (nm, c) ← dnDec rem
  return (.ptr nm, c)

/-- `RDATA.Decode` (rr.go 607-612), the opaque fallback: the whole rest of
the slice, never an error. -/
def rdataDec (rem : List Nat) : Except String (RData × Nat) :=
  .ok (.rdata rem, rem.length)

/-- `RRSIG.Decode` (rr.go 954-998): fixed fields, the signer name, then
the rest of the slice as the signature, which must be nonempty. -/
def rrsigDec (rem : List Nat) : Except String (RData × Nat) := do
  let (tc, c1) ← octets2Dec rem
  let (al, c2) ← octetDec (rem.drop c1)
  let (lb, c3) ← octetDec (rem.drop (c1 + c2))
  let (ttlW, c4) ← octets4Dec (rem.drop (c1 + c2 + c3))
  let (ex, c5) ← octets4Dec (rem.drop (c1 + c2 + c3 + c4))
  let (inc, c6) ← octets4Dec (rem.drop (c1 + c2 + c3 + c4 + c5))
  let (kt, c7) ← octets2Dec (rem.drop (c1 + c2 + c3 + c4 + c5 + c6))
  let (nm, c8) ← dnDec (rem.drop (c1 + c2 + c3 + c4 + c5 + c6 + c7))
  let c := c1 + c2 + c3 + c4 + c5 + c6 + c7 + c8
  if rem.length - c = 0 then .error "(*RRSIG).Decode: no signature data"
  else return (.rrsig tc al lb (wireToInt32 ttlW) ex inc kt nm (rem.drop c), rem.length)

/-- One field step of `SOA.Decode` (rr.go 1062-1073): the source checks a
stale `err` instead of the result of the `Octets4` decode, so a failure is
silently discarded - the field keeps its zero value (the envelope decoder
hands `SOA.Decode` a freshly zeroed struct) and the cursor does not
advance. -/
def soaStep (rem : List Nat) (c : Nat) : Nat × Nat :=
  match octets4Dec (rem.drop c) with
  | .ok (v, k) => (v, c + k)
  | .error _ => (0, c)

/-- `SOA.Decode` (rr.go 1055-1075), including the stale-error bug on the
Serial/Refresh/Retry/Expire steps; the MName/RName and Minimum decodes
check their errors properly. -/
def soaDec (rem : List Nat) : Except String (RData × Nat) := do
  let (mn, c1) ← dnDec rem
  let (rn, c2) ← dnDec (rem.drop c1)
  let (se, p1) := soaStep rem (c1 + c2)
  let (re, p2) := soaStep rem p1
  let (rt, p3) := soaStep rem p2
  let (ex, p4) := soaStep rem p3
  let (mi, c5) ← octets4Dec (rem.drop p4)
  return (.soa mn rn se re rt ex mi, p4 + c5)

/-- `TXT.Decode` loop body (rr.go 1092-1104): concatenate length-prefixed
chunks until the slice is exhausted.  Each chunk consumes at least one
byte, so `rem.length + 1` fuel always suffices. -/
def txtDecAux : Nat → List Nat → List Nat → Nat → Except String (List Nat × Nat)
  | 0, _, _, _ => .error "TXT.Decode - fuel"
  | _ + 1, [], s, consumed => .ok (s, consumed)
  | fuel + 1, rem, s, consumed => do
    let (part, c) ← charStringDec rem
    txtDecAux fuel (rem.drop c) (s ++ part) (consumed + c)

/-- `TXT.Decode` (rr.go 1092-1104). -/
def txtDec (rem : List Nat) : Except String (RData × Nat) := do
  let (s, c) ← txtDecAux (rem.length + 1) rem [] 0
  return (.txt s, c)

/-- The variant tags, mirroring the concrete types behind `dns.Wirer`. -/
inductive RTag where
  | a | aaaa | cname | dnskey | ds | mx | nodata | ns | nxdomain | nsec3
  | nsec3param | ptr | rrsig | soa | txt | rdata
  deriving DecidableEq, Repr

/-- The constructor tag of an `RData` value. -/
def rdTagOf : RData → RTag
  | .a _ => .a
  | .aaaa _ => .aaaa
  | .cname _ => .cname
  | .dnskey .. => .dnskey
  | .ds .. => .ds
  | .mx .. => .mx
  | .nodata _ => .nodata
  | .nxdomain => .nxdomain
  | .ns _ => .ns
  | .nsec3 .. => .nsec3
  | .nsec3param .. => .nsec3param
  | .ptr _ => .ptr
  | .rrsig .. => .rrsig
  | .soa .. => .soa
  | .txt _ => .txt
  | .rdata _ => .rdata

/-- The wire type code of each variant (rr.go 1115-1142); the opaque
fallback is tagged with a code from the unassigned space. -/
def rdTypeCode : RData → Nat
  | .a _ => 1
  | .aaaa _ => 28
  | .cname _ => 5
  | .dnskey .. => 48
  | .ds .. => 43
  | .mx .. => 15
  | .nodata _ => 65280
  | .nxdomain => 65281
  | .ns _ => 2
  | .nsec3 .. => 50
  | .nsec3param .. => 51
  | .ptr _ => 12
  | .rrsig .. => 46
  | .soa .. => 6
  | .txt _ => 16
  | .rdata _ => 65535

/-- The type-to-constructor table of `RR.Decode` (rr.go 683-716): the
fifteen wired-up type codes, every other code selecting the opaque
fallback. -/
def rrSelect (t : Nat) : RTag :=
  if t = 1 then .a
  else if t = 28 then .aaaa
  else if t = 5 then .cname
  else if t = 48 then .dnskey
  else if t = 43 then .ds
  else if t = 15 then .mx
  else if t = 65280 then .nodata
  else if t = 2 then .ns
  else if t = 65281 then .nxdomain
  else if t = 50 then .nsec3
  else if t = 51 then .nsec3param
  else if t = 12 then .ptr
  else if t = 46 then .rrsig
  else if t = 6 then .soa
  else if t = 16 then .txt
  else .rdata

/-- The RDATA decode that `RR.Decode` dispatches to for a type code. -/
def rdataDecodeFor (t : Nat) (rem : List Nat) : Except String (RData × Nat) :=
  match rrSelect t with
  | .a => aDec rem
  | .aaaa => aaaaDec rem
  | .cname => cnameDec rem
  | .dnskey => dnskeyDec rem
  | .ds => dsDec rem
  | .mx => mxDec rem
  | .nodata => nodataDec rem
  | .ns => nsDec rem
  | .nxdomain => nxdomainDec rem
  | .nsec3 => nsec3Dec rem
  | .nsec3param => nsec3paramDec rem >>= fun ((ha, fl, it, salt), c) =>
      .ok (.nsec3param ha fl it salt, c)
  | .ptr => ptrDec rem
  | .rrsig => rrsigDec rem
  | .soa => soaDec rem
  | .txt => txtDec rem
  | .rdata => rdataDec rem

/-- `rr.RR` (rr.go 619-637).  `Typ`/`Cls` stand for the Go fields `Type`
and `Class` (reserved words here); `TTL` is the signed 32-bit TTL. -/
structure RR where
  Name : List Nat
  Typ : Nat
  Cls : Nat
  TTL : Int
  RData : RData
  deriving DecidableEq, Repr

/-- `RR.Encode` (rr.go 644-655): owner name, type, class, TTL, a two-byte
length placeholder backpatched with the RDATA byte count (`byte(n>>8)`,
`byte(n)` - truncated like any Go byte conversion), then the RDATA. -/
def rrEncode (r : RR) : List Nat :=
  let rd := encodeRData r.RData
  -- the backpatched placeholder `byte(n>>8), byte(n)` is exactly the
  -- big-endian 16-bit encoding of the RDATA byte count
  dnEncode r.Name ++ octets2Enc r.Typ ++ octets2Enc r.Cls ++
    octets4Enc (int32ToWire r.TTL) ++ octets2Enc rd.length ++ rd

/-- `RR.Decode` (rr.go 658-720): header fields, then the variant selected
purely from the decoded type code, decoded against the sub-slice bounded
at exactly `pos + rdlength` (Go slicing past the buffer end is a runtime
panic, modelled as an error tagged `panic:`). -/
def rrDecode (rem : List Nat) : Except String (RR × Nat) := do
  let (nm, c1) ← dnDec rem
  let (t, c2) ← octets2Dec (rem.drop c1)
  let (cl, c3) ← octets2Dec (rem.drop (c1 + c2))
  let (ttlW, c4) ← octets4Dec (rem.drop (c1 + c2 + c3))
  let (rdl, c5) ← octets2Dec (rem.drop (c1 + c2 + c3 + c4))
  let hdr := c1 + c2 + c3 + c4 + c5
  if rem.length < hdr + rdl then .error "panic: slice bounds out of range"
  else do
    let (rd, c6) ← rdataDecodeFor t ((rem.drop hdr).take rdl)
    return ({ Name := nm, Typ := t, Cls := cl, TTL := wireToInt32 ttlW, RData := rd }, hdr + c6)

/-- The variant-dispatch part of `RR.Equal` (rr.go 729-803).  `none`
models the panic of the Go type assertion `b.RData.(*T)` when the two
records carry different variants; the `default: log.Fatalf` arm of the
source type switch is unreachable here because `RData` is a closed union
(spec §9).  A and AAAA addresses compare through `net.IP.String`; names
nested in RDATA compare case-insensitively; binary fields byte-exactly.
The RRSIG arm mirrors the source faithfully: it compares Type,
AlgorithmType, Labels, TTL, Expiration, KeyTag, Name and Signature - and
never the Inception field. -/
def rdEq : RData → RData → Option Bool
  | .rdata x, .rdata y => some (x == y)
  | .a x, .a y => some (ipStr x == ipStr y)
  | .aaaa x, .aaaa y => some (ipStr x == ipStr y)
  | .cname x, .cname y => some (lower x == lower y)
  | .dnskey f1 p1 a1 k1, .dnskey f2 p2 a2 k2 =>
      some (f1 == f2 && p1 == p2 && a1 == a2 && k1 == k2)
  | .ds k1 a1 d1 g1, .ds k2 a2 d2 g2 =>
      some (k1 == k2 && a1 == a2 && d1 == d2 && g1 == g2)
  | .mx p1 e1, .mx p2 e2 => some (p1 == p2 && lower e1 == lower e2)
  | .nodata t1, .nodata t2 => some (t1 == t2)
  | .nxdomain, .nxdomain => some true
  | .ns x, .ns y => some (lower x == lower y)
  | .nsec3 h1 f1 i1 s1 n1 b1, .nsec3 h2 f2 i2 s2 n2 b2 =>
      some (h1 == h2 && f1 == f2 && i1 == i2 && s1 == s2 && n1 == n2 && b1 == b2)
  | .nsec3param h1 f1 i1 s1, .nsec3param h2 f2 i2 s2 =>
      some (h1 == h2 && f1 == f2 && i1 == i2 && s1 == s2)
  | .ptr x, .ptr y => some (lower x == lower y)
  | .rrsig t1 a1 l1 ttl1 e1 _i1 k1 n1 s1, .rrsig t2 a2 l2 ttl2 e2 _i2 k2 n2 s2 =>
      some (t1 == t2 && a1 == a2 && l1 == l2 && ttl1 == ttl2 && e1 == e2 &&
            k1 == k2 && lower n1 == lower n2 && s1 == s2)
  | .soa m1 r1 se1 re1 rt1 ex1 mi1, .soa m2 r2 se2 re2 rt2 ex2 mi2 =>
      some (lower m1 == lower m2 && lower r1 == lower r2 && se1 == se2 &&
            re1 == re2 && rt1 == rt2 && ex1 == ex2 && mi1 == mi2)
  | .txt x, .txt y => some (x == y)
  | _, _ => none

/-- `RR.Equal` (rr.go 722-804): false unless Type and Class match exactly
and the owner names match case-insensitively, then the variant dispatch. -/
def rrEqual (a b : RR) : Option Bool :=
  if a.Typ ≠ b.Typ ∨ a.Cls ≠ b.Cls ∨ lower a.Name ≠ lower b.Name then some false
  else rdEq a.RData b.RData

/-- The inner scan of `RRs.SetAdd` (rr.go 832-846): does some record of
the list compare `Equal` to `x`?  `none` propagates an `Equal` panic. -/
def memberEqual (x : RR) : List RR → Option Bool
  | [] => some false
  | y :: ys =>
    match rrEqual x y with
    | none => none
    | some true => some true
    | some false => memberEqual x ys

/-- `RRs.SetAdd` (rr.go 832-846): append each incoming record not `Equal`
to any record already present. -/
def setAdd (r : List RR) : List RR → Option (List RR)
  | [] => some r
  | x :: xs =>
    match memberEqual x r with
    | none => none
    | some true => setAdd r xs
    | some false => setAdd (r ++ [x]) xs

/-- `RRs.Unique` (rr.go 849-853): self-`SetAdd` into an empty set. -/
def unique (r : List RR) : Option (List RR) := setAdd [] r

/-- The data-model invariant (spec §3): the concrete RDATA variant is the
one the type-to-constructor table selects for the record's type code. -/
def wfRR (r : RR) : Prop := rrSelect r.Typ = rdTagOf r.RData

/-- The per-variant width/length constraints under which the claimed
round-trip holds: documented widths (A = 4 octets, AAAA = 16 octets,
NSEC3/NSEC3PARAM salt at most 255 octets, DS SHA-1 digest of 20 octets,
nonempty DNSKEY key and RRSIG signature, TXT as one character-string
chunk), the Go integer field widths, and wire-codable domain names. -/
def wfRData : RData → Prop
  | .a ip => ip.length = 4
  | .aaaa ip => ip.length = 16
  | .cname nm => validName nm
  | .dnskey fl pr al key => fl < 65536 ∧ pr < 256 ∧ al < 256 ∧ key ≠ []
  | .ds kt al dt dg => kt < 65536 ∧ al < 256 ∧ dt = 1 ∧ dg.length = 20
  | .mx pref ex => pref < 65536 ∧ validName ex
  | .nodata t => t < 65536
  | .nxdomain => True
  | .ns nm => validName nm
  | .nsec3 ha fl it salt next _bm =>
      ha < 256 ∧ fl < 256 ∧ it < 65536 ∧ salt.length ≤ 255 ∧ next.length < 65536
  | .nsec3param ha fl it salt => ha < 256 ∧ fl < 256 ∧ it < 65536 ∧ salt.length ≤ 255
  | .ptr nm => validName nm
  | .rrsig tc al lb ttl ex inc kt nm sig =>
      tc < 65536 ∧ al < 256 ∧ lb < 256 ∧ -2147483648 ≤ ttl ∧ ttl < 2147483648 ∧
      ex < 4294967296 ∧ inc < 4294967296 ∧ kt < 65536 ∧ validName nm ∧ sig ≠ []
  | .soa mn rn se re rt ex mi =>
      validName mn ∧ validName rn ∧ se < 4294967296 ∧ re < 4294967296 ∧
      rt < 4294967296 ∧ ex < 4294967296 ∧ mi < 4294967296
  | .txt s => s.length ≤ 255
  | .rdata _ => True

/-- What decoding an encoded variant yields: identical fields, except that
an A address comes back in the 16-byte `net.IPv4` form of the same
4-octet address (the Go decoder stores `net.IPv4(..)`). -/
def canonRData : RData → RData
  | .a ip => .a (match ipTo4 ip with | some b4 => v4pfx ++ b4 | none => ip)
  | v => v

theorem dropSplit (l : List Nat) (j k : Nat) : l.drop (j + k) = (l.drop j).drop k := by
  rw [List.drop_drop, Nat.add_comm]

theorem rdEq_refl (v : RData) : rdEq v v = some true := by
  cases v <;> simp [rdEq]

theorem ipTo4_length {ip b4 : List Nat} (h : ipTo4 ip = some b4) : b4.length = 4 := by
  unfold ipTo4 at h
  split at h
  · cases h
    omega
  · split at h
    · cases h
      simp only [List.length_drop]
      omega
    · cases h

theorem ipTo4_v4pfx_append {b4 : List Nat} (h : b4.length = 4) :
    ipTo4 (v4pfx ++ b4) = some b4 := by
  match b4, h with
  | [b0, b1, b2, b3], _ => simp [v4pfx, ipTo4, List.take, List.drop]

theorem ipStr_v4pfx_append {ip b4 : List Nat} (h : ipTo4 ip = some b4) :
    ipStr (v4pfx ++ b4) = ipStr ip := by
  have h4 := ipTo4_length h
  match b4, h4 with
  | [b0, b1, b2, b3], _ =>
    unfold ipStr
    rw [h, ipTo4_v4pfx_append (by rfl)]

theorem o4drop (n : Nat) (rest : List Nat) : (octets4Enc n ++ rest).drop 4 = rest := by
  simp [octets4Enc]

theorem o4len (n : Nat) : (octets4Enc n).length = 4 := by
  simp [octets4Enc]

/-- C1: for every RDATA variant value satisfying the variant's documented
width/length constraints (4-octet A address, 16-octet AAAA address, salt of
at most 255 octets, nonempty DNSKEY key and RRSIG signature, ...), decoding
the bytes produced by encoding it - with the decode input sliced to exactly
the encoded RDATA - succeeds, consumes the whole slice, and yields the
value back field-for-field: the decoded value is `canonRData v` (identical
fields, the A address merely re-expressed in the Go decoder's 16-byte
`net.IPv4` form of the same 4-octet address), and the program's own
per-variant field equality accepts the pair. -/
theorem rdata_roundtrip (v : RData) (h : wfRData v) :
    rdataDecodeFor (rdTypeCode v) (encodeRData v)
      = .ok (canonRData v, (encodeRData v).length) ∧
    rdEq v (canonRData v) = some true := by
  cases v with
  | a ip =>
    have h4 : ip.length = 4 := h
    have hip : ipTo4 ip = some ip := by simp [ipTo4, h4]
    match ip, h4 with
    | [b0, b1, b2, b3], _ =>
      constructor
      · simp [rdataDecodeFor, rdTypeCode, rrSelect, encodeRData, asserts, ip4Encode, hip,
          canonRData, aDec, goIPv4, v4pfx]
      · simp only [canonRData, hip, rdEq, Option.some.injEq]
        rw [ipStr_v4pfx_append hip]
        simp
  | aaaa ip =>
    have h16 : ip.length = 16 := h
    have hip : ipTo16 ip = some ip := by simp [ipTo16, h16]
    constructor
    · simp [rdataDecodeFor, rdTypeCode, rrSelect, encodeRData, asserts, ip6Encode, hip,
        canonRData, aaaaDec, h16, List.take_of_length_le (Nat.le_of_eq h16)]
    · simp [canonRData, rdEq]
  | cname nm =>
    have hdn : dnDec (dnEncode nm) = .ok (nm, (dnEncode nm).length) := by
      simpa using dnDec_enc nm h []
    constructor
    · simp [rdataDecodeFor, rdTypeCode, rrSelect, encodeRData, canonRData, cnameDec,
        bind, Except.bind, pure, Except.pure, hdn]
    · simp [canonRData, rdEq]
  | dnskey fl pr al key =>
    obtain ⟨hfl, hpr, hal, hkey⟩ := h
    have e1 : fl / 256 % 256 * 256 + fl % 256 = fl := by omega
    have e2 : pr % 256 = pr := Nat.mod_eq_of_lt hpr
    have e3 : al % 256 = al := Nat.mod_eq_of_lt hal
    have e4 : key.length ≠ 0 := by simpa using hkey
    constructor
    · simp [rdataDecodeFor, rdTypeCode, rrSelect, encodeRData, canonRData, dnskeyDec,
        octets2Enc, octetEnc, octets2Dec, octetDec, bind, Except.bind, pure, Except.pure,
        e1, e2, e3, e4]
    · simp [canonRData, rdEq]
  | ds kt al dt dg =>
    obtain ⟨hkt, hal, hdt, hdg⟩ := h
    subst hdt
    have e1 : kt / 256 % 256 * 256 + kt % 256 = kt := by omega
    have e2 : al % 256 = al := Nat.mod_eq_of_lt hal
    constructor
    · simp [rdataDecodeFor, rdTypeCode, rrSelect, encodeRData, canonRData, dsDec,
        octets2Enc, octetEnc, octets2Dec, octetDec, bind, Except.bind, pure, Except.pure,
        e1, e2, hdg, List.take_of_length_le (Nat.le_of_eq hdg)]
    · simp [canonRData, rdEq]
  | mx pref ex =>
    obtain ⟨hp, hex⟩ := h
    have e1 : pref / 256 % 256 * 256 + pref % 256 = pref := by omega
    have hdn := dnDec_enc ex hex []
    rw [List.append_nil] at hdn
    constructor
    · simp [rdataDecodeFor, rdTypeCode, rrSelect, encodeRData, canonRData, mxDec,
        octets2Enc, octets2Dec, bind, Except.bind, pure, Except.pure, e1, hdn]
      omega
    · simp [canonRData, rdEq]
  | nodata t =>
    have ht : t < 65536 := h
    have e1 : t / 256 % 256 * 256 + t % 256 = t := by omega
    constructor
    · simp [rdataDecodeFor, rdTypeCode, rrSelect, encodeRData, canonRData, nodataDec,
        octets2Enc, octets2Dec, bind, Except.bind, pure, Except.pure, e1]
    · simp [canonRData, rdEq]
  | nxdomain =>
    constructor
    · simp [rdataDecodeFor, rdTypeCode, rrSelect, encodeRData, canonRData, nxdomainDec]
    · simp [canonRData, rdEq]
  | ns nm =>
    have hdn : dnDec (dnEncode nm) = .ok (nm, (dnEncode nm).length) := by
      simpa using dnDec_enc nm h []
    constructor
    · simp [rdataDecodeFor, rdTypeCode, rrSelect, encodeRData, canonRData, nsDec,
        bind, Except.bind, pure, Except.pure, hdn]
    · simp [canonRData, rdEq]
  | nsec3 ha fl it salt next bm =>
    obtain ⟨hha, hfl, hit, hsalt, hnext⟩ := h
    have e1 : ha % 256 = ha := Nat.mod_eq_of_lt hha
    have e2 : fl % 256 = fl := Nat.mod_eq_of_lt hfl
    have e3 : it / 256 % 256 * 256 + it % 256 = it := by omega
    have e4 : salt.length % 256 = salt.length := Nat.mod_eq_of_lt (by omega)
    have e5 : next.length / 256 % 256 * 256 + next.length % 256 = next.length := by omega
    constructor
    · simp +decide only [reduceIte, rdataDecodeFor, rdTypeCode, rrSelect, encodeRData,
        canonRData, nsec3Dec, nsec3paramDec, nsec3paramEnc, octets2Enc, octetEnc,
        octets2Dec, octetDec, bind, Except.bind, pure, Except.pure, List.cons_append,
        List.nil_append, List.append_assoc, e1, e2, e3, e4, e5, dropSplit,
        List.drop_succ_cons, List.drop_zero, List.drop_left, List.take_left,
        List.length_cons, List.length_append, List.length_take, List.take_length]
      rw [if_neg (by omega)]
      simp +decide only [reduceIte, bind, Except.bind, pure, Except.pure, List.cons_append,
        List.nil_append, List.append_assoc, e1, e2, e3, e4, e5, dropSplit,
        List.drop_succ_cons, List.drop_zero, List.drop_left, List.take_left,
        List.length_cons, List.length_append, List.length_take, List.take_length]
      rw [if_neg (by omega)]
    · simp [canonRData, rdEq]
  | nsec3param ha fl it salt =>
    obtain ⟨hha, hfl, hit, hsalt⟩ := h
    have e1 : ha % 256 = ha := Nat.mod_eq_of_lt hha
    have e2 : fl % 256 = fl := Nat.mod_eq_of_lt hfl
    have e3 : it / 256 % 256 * 256 + it % 256 = it := by omega
    have e4 : salt.length % 256 = salt.length := Nat.mod_eq_of_lt (by omega)
    constructor
    · simp +decide only [reduceIte, rdataDecodeFor, rdTypeCode, rrSelect, encodeRData,
        canonRData, nsec3paramDec, nsec3paramEnc, octets2Enc, octetEnc, octets2Dec,
        octetDec, bind, Except.bind, pure, Except.pure, List.cons_append, List.nil_append,
        e1, e2, e3, e4, dropSplit, List.drop_succ_cons, List.drop_zero,
        List.length_cons, List.length_append]
      rw [if_neg (by omega)]
      simp only [List.take_length, Except.ok.injEq, Prod.mk.injEq]
      exact ⟨trivial, by omega⟩
    · simp [canonRData, rdEq]
  | ptr nm =>
    have hdn : dnDec (dnEncode nm) = .ok (nm, (dnEncode nm).length) := by
      simpa using dnDec_enc nm h []
    constructor
    · simp [rdataDecodeFor, rdTypeCode, rrSelect, encodeRData, canonRData, ptrDec,
        bind, Except.bind, pure, Except.pure, hdn]
    · simp [canonRData, rdEq]
  | rrsig tc al lb ttl ex inc kt nm sig =>
    obtain ⟨htc, hal, hlb, hlo, hhi, hexp, hinc, hkt, hnm, hsig⟩ := h
    have e1 : tc / 256 % 256 * 256 + tc % 256 = tc := by omega
    have e2 : al % 256 = al := Nat.mod_eq_of_lt hal
    have e3 : lb % 256 = lb := Nat.mod_eq_of_lt hlb
    have hw : int32ToWire ttl < 4294967296 := by
      unfold int32ToWire
      omega
    have e4 : ((int32ToWire ttl / 16777216 % 256 * 256 + int32ToWire ttl / 65536 % 256) * 256 +
        int32ToWire ttl / 256 % 256) * 256 + int32ToWire ttl % 256 = int32ToWire ttl := by omega
    have e5 : ((ex / 16777216 % 256 * 256 + ex / 65536 % 256) * 256 + ex / 256 % 256) * 256 +
        ex % 256 = ex := by omega
    have e6 : ((inc / 16777216 % 256 * 256 + inc / 65536 % 256) * 256 + inc / 256 % 256) * 256 +
        inc % 256 = inc := by omega
    have e7 : kt / 256 % 256 * 256 + kt % 256 = kt := by omega
    have hsl : sig.length ≠ 0 := by simpa using hsig
    have hdn := dnDec_enc nm hnm sig
    have hrt := wireToInt32_int32ToWire ttl hlo hhi
    constructor
    · simp +decide only [reduceIte, rdataDecodeFor, rdTypeCode, rrSelect, encodeRData,
        canonRData, rrsigDec,
        octets2Enc, octetEnc, octets4Enc, octets2Dec, octetDec, octets4Dec,
        bind, Except.bind, pure, Except.pure, List.cons_append, List.nil_append,
        e1, e2, e3, e4, e5, e6, e7, hdn, hrt, dropSplit, List.drop_succ_cons,
        List.drop_zero, List.drop_left, List.length_cons, List.length_append]
      rw [if_neg (by omega)]
    · simp [canonRData, rdEq]
  | soa mn rn se re rt ex mi =>
    obtain ⟨hmn, hrn, hse, hre, hrt, hex, hmi⟩ := h
    have hdn1 := dnDec_enc mn hmn (dnEncode rn ++ (octets4Enc se ++ (octets4Enc re ++
      (octets4Enc rt ++ (octets4Enc ex ++ octets4Enc mi)))))
    have hdn2 := dnDec_enc rn hrn (octets4Enc se ++ (octets4Enc re ++
      (octets4Enc rt ++ (octets4Enc ex ++ octets4Enc mi))))
    have d1 := octets4Dec_enc se hse
      (octets4Enc re ++ (octets4Enc rt ++ (octets4Enc ex ++ octets4Enc mi)))
    have d2 := octets4Dec_enc re hre (octets4Enc rt ++ (octets4Enc ex ++ octets4Enc mi))
    have d3 := octets4Dec_enc rt hrt (octets4Enc ex ++ octets4Enc mi)
    have d4 := octets4Dec_enc ex hex (octets4Enc mi)
    have d5 : octets4Dec (octets4Enc mi) = .ok (mi, 4) := by
      simpa using octets4Dec_enc mi hmi []
    constructor
    · simp +decide only [reduceIte, rdataDecodeFor, rdTypeCode, rrSelect, encodeRData,
        canonRData, soaDec, soaStep, bind, Except.bind, pure, Except.pure,
        List.append_assoc, hdn1, hdn2, d1, d2, d3, d4, d5, dropSplit, o4drop,
        List.drop_left, List.length_append, o4len, Except.ok.injEq, Prod.mk.injEq]
      exact ⟨trivial, by omega⟩
    · simp [canonRData, rdEq]
  | txt s =>
    have hcs : charStringDec (s.length % 256 :: s) = .ok (s, s.length + 1) := by
      simpa [charStringEnc] using charStringDec_enc s h []
    have hd : ((s.length % 256) :: s).drop (s.length + 1) = [] := by
      rw [List.drop_succ_cons, List.drop_length]
    constructor
    · simp +decide only [reduceIte, rdataDecodeFor, rdTypeCode, rrSelect, encodeRData,
        canonRData, txtDec, List.length_cons, txtDecAux, hcs, hd, charStringEnc,
        List.nil_append, Nat.zero_add, bind, Except.bind, pure, Except.pure]
    · simp [canonRData, rdEq]
  | rdata d =>
    constructor
    · simp [rdataDecodeFor, rdTypeCode, rrSelect, encodeRData, canonRData, rdataDec]
    · simp [canonRData, rdEq]

/-- C1 witness: a concrete RRSIG instance round-trips. -/
theorem rdata_roundtrip_witness :
    wfRData (RData.rrsig 1 5 2 3600 1234567890 1234560000 12345 [101, 120] [9, 8, 7]) ∧
    (rdataDecodeFor (rdTypeCode (RData.rrsig 1 5 2 3600 1234567890 1234560000 12345
        [101, 120] [9, 8, 7]))
      (encodeRData (RData.rrsig 1 5 2 3600 1234567890 1234560000 12345 [101, 120] [9, 8, 7]))
      = .ok (canonRData (RData.rrsig 1 5 2 3600 1234567890 1234560000 12345 [101, 120] [9, 8, 7]),
             (encodeRData (RData.rrsig 1 5 2 3600 1234567890 1234560000 12345
               [101, 120] [9, 8, 7])).length) ∧
     rdEq (RData.rrsig 1 5 2 3600 1234567890 1234560000 12345 [101, 120] [9, 8, 7])
       (canonRData (RData.rrsig 1 5 2 3600 1234567890 1234560000 12345 [101, 120] [9, 8, 7]))
       = some true) :=
  ⟨by unfold wfRData validName validLabel; decide,
   rdata_roundtrip _ (by unfold wfRData validName validLabel; decide)⟩

theorem o2drop (n : Nat) (rest : List Nat) : (octets2Enc n ++ rest).drop 2 = rest := by
  simp [octets2Enc]

theorem o2len (n : Nat) : (octets2Enc n).length = 2 := by
  simp [octets2Enc]

theorem rrSelect_unknown (t : Nat)
    (ht : t ∉ ([1, 2, 5, 6, 12, 15, 16, 28, 43, 46, 48, 50, 51, 65280, 65281] : List Nat)) :
    rrSelect t = RTag.rdata := by
  simp only [List.mem_cons, List.not_mem_nil, or_false, not_or] at ht
  obtain ⟨h1, h2, h3, h4, h5, h6, h7, h8, h9, h10, h11, h12, h13, h14, h15⟩ := ht
  simp [rrSelect, h1, h2, h3, h4, h5, h6, h7, h8, h9, h10, h11, h12, h13, h14, h15]

/-- C2: every type code absent from the envelope decoder's
type-to-constructor table selects the opaque `RDATA` fallback (never an
"unknown type" error), and a record carrying opaque RDATA under such a
type code encodes and then decodes back to the very same record - in
particular the opaque RDATA bytes are identical. -/
theorem unknown_type_passthrough :
    (∀ t : Nat,
      t ∉ ([1, 2, 5, 6, 12, 15, 16, 28, 43, 46, 48, 50, 51, 65280, 65281] : List Nat) →
      rrSelect t = RTag.rdata) ∧
    (∀ (r : RR) (bs : List Nat), r.RData = .rdata bs →
      rrSelect r.Typ = RTag.rdata →
      validName r.Name → r.Typ < 65536 → r.Cls < 65536 →
      -2147483648 ≤ r.TTL → r.TTL < 2147483648 → bs.length < 65536 →
      rrDecode (rrEncode r) = .ok (r, (rrEncode r).length)) := by
  constructor
  · exact rrSelect_unknown
  · intro r bs hrd hsel hnm ht hcl hlo hhi hbs
    obtain ⟨nm, t, cl, ttl, rd⟩ := r
    simp only at hrd hsel hnm ht hcl hlo hhi
    subst hrd
    have hw : int32ToWire ttl < 4294967296 := by
      unfold int32ToWire
      omega
    have hrt := wireToInt32_int32ToWire ttl hlo hhi
    have hdn1 := dnDec_enc nm hnm (octets2Enc t ++ (octets2Enc cl ++
      (octets4Enc (int32ToWire ttl) ++ (octets2Enc bs.length ++ bs))))
    have d1 := octets2Dec_enc t ht (octets2Enc cl ++
      (octets4Enc (int32ToWire ttl) ++ (octets2Enc bs.length ++ bs)))
    have d2 := octets2Dec_enc cl hcl
      (octets4Enc (int32ToWire ttl) ++ (octets2Enc bs.length ++ bs))
    have d3 := octets4Dec_enc (int32ToWire ttl) hw (octets2Enc bs.length ++ bs)
    have d4 := octets2Dec_enc bs.length hbs bs
    simp +decide only [reduceIte, rrDecode, rrEncode, encodeRData, bind, Except.bind,
      pure, Except.pure, List.append_assoc, hdn1, d1, d2, d3, d4, dropSplit, o2drop, o4drop,
      List.drop_left, List.length_append, o2len, o4len]
    rw [if_neg (by omega)]
    simp +decide only [reduceIte, List.drop_left, List.take_length, rdataDecodeFor, hsel,
      rdataDec, bind, Except.bind, pure, Except.pure, hrt, Except.ok.injEq, Prod.mk.injEq]
    exact ⟨trivial, by omega⟩

/-- A concrete record with an unknown type code and opaque RDATA. -/
def unknownTypeRec : RR :=
  { Name := [120], Typ := 999, Cls := 1, TTL := 300, RData := .rdata [1, 2, 3] }

/-- C2 witness: type code 999 is not in the table; a concrete record with
opaque RDATA under it round-trips byte-identically. -/
theorem unknown_type_passthrough_witness :
    rrSelect 999 = RTag.rdata ∧
    rrDecode (rrEncode unknownTypeRec)
      = .ok (unknownTypeRec, (rrEncode unknownTypeRec).length) :=
  ⟨unknown_type_passthrough.1 999 (by decide),
   unknown_type_passthrough.2 _ [1, 2, 3] rfl (unknown_type_passthrough.1 999 (by decide))
     (by unfold validName validLabel; decide) (by decide) (by decide)
     (by decide) (by decide) (by decide)⟩

theorem octets4Dec_shape (l : List Nat) :
    (∃ v, octets4Dec l = .ok (v, 4)) ∨
    octets4Dec l = .error "Octets4.Decode - buffer underflow" := by
  rcases l with _ | ⟨a, _ | ⟨b, _ | ⟨c, _ | ⟨d, t⟩⟩⟩⟩ <;> simp [octets4Dec]

/-- C3: whenever `SOA.Decode` reports success, every one of its seven
field decodes (MName, RName, then the five `Octets4` fields at the cursor
positions the execution visits) succeeded - equivalently, an input on
which any single field decode fails never reaches the caller as success.
This holds despite the stale-error check in the source: a failed 32-bit
read does not advance the cursor, so the failure cascades to the properly
checked final Minimum decode. -/
theorem soa_decode_no_silent_success (rem : List Nat) (v : RData) (c : Nat)
    (hok : soaDec rem = .ok (v, c)) :
    ∃ mn c1 rn c2, dnDec rem = .ok (mn, c1) ∧ dnDec (rem.drop c1) = .ok (rn, c2) ∧
      (octets4Dec (rem.drop (c1 + c2))).isOk ∧
      (octets4Dec (rem.drop (c1 + c2 + 4))).isOk ∧
      (octets4Dec (rem.drop (c1 + c2 + 8))).isOk ∧
      (octets4Dec (rem.drop (c1 + c2 + 12))).isOk ∧
      (octets4Dec (rem.drop (c1 + c2 + 16))).isOk := by
  unfold soaDec at hok
  simp only [bind, Except.bind] at hok
  cases hdn1 : dnDec rem with
  | error e => rw [hdn1] at hok; exact absurd hok (by simp)
  | ok p =>
    obtain ⟨mn, c1⟩ := p
    rw [hdn1] at hok
    simp only at hok
    cases hdn2 : dnDec (rem.drop c1) with
    | error e => rw [hdn2] at hok; exact absurd hok (by simp)
    | ok q =>
      obtain ⟨rn, c2⟩ := q
      rw [hdn2] at hok
      simp only at hok
      refine ⟨mn, c1, rn, c2, rfl, hdn2, ?_⟩
      rcases octets4Dec_shape (rem.drop (c1 + c2)) with ⟨s1, hs1⟩ | hs1
      case inr =>
        simp only [soaStep, hs1] at hok
        exact absurd hok (by simp)
      rcases octets4Dec_shape (rem.drop (c1 + c2 + 4)) with ⟨s2, hs2⟩ | hs2
      case inr =>
        simp only [soaStep, hs1, hs2] at hok
        exact absurd hok (by simp)
      rcases octets4Dec_shape (rem.drop (c1 + c2 + 8)) with ⟨s3, hs3⟩ | hs3
      case inr =>
        simp only [soaStep, hs1, hs2, hs3] at hok
        exact absurd hok (by simp)
      rcases octets4Dec_shape (rem.drop (c1 + c2 + 12)) with ⟨s4, hs4⟩ | hs4
      case inr =>
        simp only [soaStep, hs1, hs2, hs3, hs4] at hok
        exact absurd hok (by simp)
      rcases octets4Dec_shape (rem.drop (c1 + c2 + 16)) with ⟨s5, hs5⟩ | hs5
      case inr =>
        simp only [soaStep, hs1, hs2, hs3, hs4, hs5] at hok
        exact absurd hok (by simp)
      simp [hs1, hs2, hs3, hs4, hs5, Except.isOk, Except.toBool]

/-- A concrete well-formed SOA wire image: names `a`, `b`, then the five
32-bit fields 1..5. -/
def soaWireSample : List Nat :=
  [1, 97, 0, 1, 98, 0, 0, 0, 0, 1, 0, 0, 0, 2, 0, 0, 0, 3, 0, 0, 0, 4, 0, 0, 0, 5]

/-- C3 witness: on a concrete successful SOA decode all seven field
decodes succeed. -/
theorem soa_decode_no_silent_success_witness :
    ∃ mn c1 rn c2, dnDec soaWireSample = .ok (mn, c1) ∧
      dnDec (soaWireSample.drop c1) = .ok (rn, c2) ∧
      (octets4Dec (soaWireSample.drop (c1 + c2))).isOk ∧
      (octets4Dec (soaWireSample.drop (c1 + c2 + 4))).isOk ∧
      (octets4Dec (soaWireSample.drop (c1 + c2 + 8))).isOk ∧
      (octets4Dec (soaWireSample.drop (c1 + c2 + 12))).isOk ∧
      (octets4Dec (soaWireSample.drop (c1 + c2 + 16))).isOk :=
  soa_decode_no_silent_success soaWireSample (.soa [97] [98] 1 2 3 4 5) 26 rfl

/-- Two RRSIG records that agree on every RDATA field except the Inception
time. -/
def rrsigRecA : RR :=
  { Name := [101, 120], Typ := 46, Cls := 1, TTL := 3600,
    RData := .rrsig 1 5 2 3600 1111 0 12345 [101, 120] [1, 2, 3] }

/-- Companion of `rrsigRecA` whose Inception is 1 instead of 0. -/
def rrsigRecB : RR :=
  { Name := [101, 120], Typ := 46, Cls := 1, TTL := 3600,
    RData := .rrsig 1 5 2 3600 1111 1 12345 [101, 120] [1, 2, 3] }

/-- C4: the RRSIG arm of `RR.Equal` never compares the Inception field
(rr.go 781-790 lists every other field), so two records whose RDATA differ
only in Inception - and whose wire RDATA therefore differ - still compare
`Equal`, contradicting the method's own contract of RFC 2136 §1.1
record identity. -/
theorem rrsig_equal_ignores_inception :
    rrsigRecA.RData ≠ rrsigRecB.RData ∧ rrEqual rrsigRecA rrsigRecB = some true := by
  constructor
  · decide
  · rfl

/-- C5 counterexample: with the shipped `asserts = false`, encoding an A
value whose 3-byte address cannot be narrowed to 4 octets does not fail
and does not assert - it silently appends zero bytes of RDATA. -/
theorem a_encode_silent_wrong_width :
    asserts = false ∧ ipTo4 [1, 2, 3] = none ∧ ip4Encode asserts [1, 2, 3] = some [] := by
  constructor
  · rfl
  constructor
  · rfl
  · rfl

/-- C5 (amended): when assertions are enabled, `ip4.Encode`/`ip6.Encode`
panic on a non-narrowable address; in the shipped configuration
(`asserts = false`) they silently append nothing; when narrowing succeeds
the appended RDATA has the documented width (4 and 16 octets). -/
theorem ip_encode_assert_behavior :
    (∀ ip, ipTo4 ip = none → ip4Encode true ip = none ∧ ip4Encode false ip = some []) ∧
    (∀ ip, ipTo16 ip = none → ip6Encode true ip = none ∧ ip6Encode false ip = some []) ∧
    (∀ ip b4, ipTo4 ip = some b4 →
      ip4Encode asserts ip = some b4 ∧ b4.length = 4) ∧
    (∀ ip b16, ipTo16 ip = some b16 →
      ip6Encode asserts ip = some b16 ∧ b16.length = 16) := by
  refine ⟨fun ip h => ?_, fun ip h => ?_, fun ip b4 h => ?_, fun ip b16 h => ?_⟩
  · simp [ip4Encode, h]
  · simp [ip6Encode, h]
  · refine ⟨by simp [ip4Encode, asserts, h], ipTo4_length h⟩
  · refine ⟨by simp [ip6Encode, asserts, h], ?_⟩
    unfold ipTo16 at h
    split at h
    · cases h
      simp only [List.length_append]
      simp [v4pfx]
      omega
    · split at h
      · cases h
        omega
      · cases h

/-- C5 witness: concrete instances of each clause. -/
theorem ip_encode_assert_behavior_witness :
    (ip4Encode true [9, 9] = none ∧ ip4Encode false [9, 9] = some []) ∧
    (ip6Encode true [9, 9] = none ∧ ip6Encode false [9, 9] = some []) ∧
    (ip4Encode asserts [10, 0, 0, 1] = some [10, 0, 0, 1] ∧
      ([10, 0, 0, 1] : List Nat).length = 4) ∧
    (ip6Encode asserts [0, 0, 0, 0, 0, 0, 0, 0, 0, 0, 0, 0, 0, 0, 0, 1]
        = some [0, 0, 0, 0, 0, 0, 0, 0, 0, 0, 0, 0, 0, 0, 0, 1] ∧
      ([0, 0, 0, 0, 0, 0, 0, 0, 0, 0, 0, 0, 0, 0, 0, 1] : List Nat).length = 16) :=
  ⟨ip_encode_assert_behavior.1 [9, 9] (by decide),
   ip_encode_assert_behavior.2.1 [9, 9] (by decide),
   ip_encode_assert_behavior.2.2.1 [10, 0, 0, 1] [10, 0, 0, 1] (by decide),
   ip_encode_assert_behavior.2.2.2 [0, 0, 0, 0, 0, 0, 0, 0, 0, 0, 0, 0, 0, 0, 0, 1]
     [0, 0, 0, 0, 0, 0, 0, 0, 0, 0, 0, 0, 0, 0, 0, 1] (by decide)⟩

/-- "Differ only in letter case": same variant, name-valued fields equal
after lower-casing (CNAME target, MX exchange, NS/PTR names, RRSIG signer,
SOA MName/RName), every other field identical. -/
def caseOnlyRData : RData → RData → Prop
  | .cname x, .cname y => lower x = lower y
  | .mx p1 e1, .mx p2 e2 => p1 = p2 ∧ lower e1 = lower e2
  | .ns x, .ns y => lower x = lower y
  | .ptr x, .ptr y => lower x = lower y
  | .rrsig t1 a1 l1 ttl1 e1 i1 k1 n1 s1, .rrsig t2 a2 l2 ttl2 e2 i2 k2 n2 s2 =>
      t1 = t2 ∧ a1 = a2 ∧ l1 = l2 ∧ ttl1 = ttl2 ∧ e1 = e2 ∧ i1 = i2 ∧ k1 = k2 ∧
      lower n1 = lower n2 ∧ s1 = s2
  | .soa m1 r1 se1 re1 rt1 ex1 mi1, .soa m2 r2 se2 re2 rt2 ex2 mi2 =>
      lower m1 = lower m2 ∧ lower r1 = lower r2 ∧ se1 = se2 ∧ re1 = re2 ∧ rt1 = rt2 ∧
      ex1 = ex2 ∧ mi1 = mi2
  | x, y => x = y

/-- C6: two records that agree on Type and Class and differ only in the
letter case of the owner name and/or of any name-valued RDATA field
compare `Equal`. -/
theorem equal_case_insensitive (a b : RR) (ht : a.Typ = b.Typ) (hc : a.Cls = b.Cls)
    (hn : lower a.Name = lower b.Name) (hr : caseOnlyRData a.RData b.RData) :
    rrEqual a b = some true := by
  obtain ⟨an, at1, ac, attl, ard⟩ := a
  obtain ⟨bn, bt, bc, bttl, brd⟩ := b
  simp only at ht hc hn hr
  unfold rrEqual
  rw [if_neg (by simp [ht, hc, hn])]
  simp only
  cases ard <;> cases brd <;> simp_all [caseOnlyRData, rdEq]

/-- An upper-case CNAME record. -/
def cnameRecUpper : RR :=
  { Name := [87, 87, 87], Typ := 5, Cls := 1, TTL := 60, RData := .cname [65, 66] }

/-- The same CNAME record in lower case. -/
def cnameRecLower : RR :=
  { Name := [119, 119, 119], Typ := 5, Cls := 1, TTL := 60, RData := .cname [97, 98] }

/-- C6 witness: `WWW`/`AB` versus `www`/`ab` compare `Equal`. -/
theorem equal_case_insensitive_witness :
    rrEqual cnameRecUpper cnameRecLower = some true :=
  equal_case_insensitive cnameRecUpper cnameRecLower rfl rfl (by decide)
    (show lower [65, 66] = lower [97, 98] by decide)

theorem rdEq_ne_none_of_tag {u w : RData} (h : rdTagOf u = rdTagOf w) :
    rdEq u w ≠ none := by
  cases u <;> cases w <;> simp_all [rdTagOf, rdEq]

theorem rrEqual_ne_none {x y : RR} (hx : wfRR x) (hy : wfRR y) :
    rrEqual x y ≠ none := by
  unfold rrEqual
  split
  · simp
  · next hcond =>
    have hty : x.Typ = y.Typ := by
      by_contra hne
      exact hcond (Or.inl hne)
    have htag : rdTagOf x.RData = rdTagOf y.RData := by
      unfold wfRR at hx hy
      rw [← hx, ← hy, hty]
    exact rdEq_ne_none_of_tag htag

theorem rrEqual_refl (x : RR) : rrEqual x x = some true := by
  unfold rrEqual
  rw [if_neg (by simp)]
  exact rdEq_refl x.RData

theorem memberEqual_shape (x : RR) (l : List RR)
    (h : ∀ y ∈ l, rrEqual x y ≠ none) : ∃ b, memberEqual x l = some b := by
  induction l with
  | nil => exact ⟨false, rfl⟩
  | cons y ys ih =>
    have hy := h y (by simp)
    unfold memberEqual
    cases he : rrEqual x y with
    | none => exact absurd he hy
    | some b =>
      cases b with
      | true => exact ⟨true, rfl⟩
      | false => exact ih (fun z hz => h z (by simp [hz]))

theorem memberEqual_of_mem (x : RR) (l : List RR) (hx : x ∈ l)
    (h : ∀ y ∈ l, rrEqual x y ≠ none) : memberEqual x l = some true := by
  induction l with
  | nil => cases hx
  | cons y ys ih =>
    unfold memberEqual
    cases he : rrEqual x y with
    | none => exact absurd he (h y (by simp))
    | some b =>
      cases b with
      | true => rfl
      | false =>
        rcases List.mem_cons.mp hx with hxy | hmem
        · subst hxy
          rw [rrEqual_refl x] at he
          cases he
        · exact ih hmem (fun z hz => h z (by simp [hz]))

theorem setAdd_append_arg2 (r : List RR) (xs ys : List RR) :
    setAdd r (xs ++ ys) = (setAdd r xs).bind (fun t => setAdd t ys) := by
  induction xs generalizing r with
  | nil => simp [setAdd]
  | cons x xs ih =>
    cases hm : memberEqual x r with
    | none => simp [setAdd, hm]
    | some b => cases b <;> simp [setAdd, hm, ih]

theorem setAdd_skip_all (acc : List RR) (xs : List RR)
    (h : ∀ x ∈ xs, memberEqual x acc = some true) : setAdd acc xs = some acc := by
  induction xs with
  | nil => rfl
  | cons x xs ih =>
    unfold setAdd
    rw [h x (by simp)]
    exact ih (fun z hz => h z (by simp [hz]))

theorem setAdd_total (xs : List RR) :
    ∀ acc, (∀ r ∈ acc, wfRR r) → (∀ r ∈ xs, wfRR r) →
      ∃ res, setAdd acc xs = some res ∧ (∀ r ∈ res, wfRR r) ∧
        res.length ≤ acc.length + xs.length ∧
        (setAdd [] acc = some acc → setAdd [] res = some res) := by
  induction xs with
  | nil =>
    intro acc hacc _
    exact ⟨acc, rfl, hacc, by omega, fun h => h⟩
  | cons x xs ih =>
    intro acc hacc hxs
    have hxwf : wfRR x := hxs x (by simp)
    have hne : ∀ y ∈ acc, rrEqual x y ≠ none :=
      fun y hy => rrEqual_ne_none hxwf (hacc y hy)
    obtain ⟨b, hb⟩ := memberEqual_shape x acc hne
    cases b with
    | true =>
      obtain ⟨res, h1, h2, h3, h4⟩ := ih acc hacc (fun z hz => hxs z (by simp [hz]))
      refine ⟨res, ?_, h2, by simp; omega, h4⟩
      unfold setAdd
      rw [hb]
      exact h1
    | false =>
      have hacc' : ∀ r ∈ acc ++ [x], wfRR r := by
        intro r hr
        rcases List.mem_append.mp hr with h | h
        · exact hacc r h
        · simp at h
          subst h
          exact hxwf
      obtain ⟨res, h1, h2, h3, h4⟩ := ih (acc ++ [x]) hacc' (fun z hz => hxs z (by simp [hz]))
      refine ⟨res, ?_, h2, by simp at h3 ⊢; omega, fun hred => ?_⟩
      · unfold setAdd
        rw [hb]
        exact h1
      · refine h4 ?_
        rw [setAdd_append_arg2 [] acc [x], hred]
        simp only [Option.some_bind]
        unfold setAdd
        rw [hb]
        rfl

/-- C7: for a record set whose members respect the type-variant invariant
(so `Equal` is defined on every pair - no type-assertion panic), `Unique`
succeeds and is idempotent, never grows the set, and self-`SetAdd` leaves
the set unchanged. -/
theorem set_algebra (S : List RR) (hwf : ∀ r ∈ S, wfRR r) :
    ∃ u, unique S = some u ∧ unique u = some u ∧ u.length ≤ S.length ∧
      setAdd S S = some S := by
  obtain ⟨u, h1, h2, h3, h4⟩ := setAdd_total S [] (by simp) hwf
  refine ⟨u, h1, h4 rfl, by simpa using h3, ?_⟩
  refine setAdd_skip_all S S (fun x hx => ?_)
  exact memberEqual_of_mem x S hx (fun y hy => rrEqual_ne_none (hwf x hx) (hwf y hy))

/-- A sample A record for the set-algebra witness. -/
def setSampleA : RR := { Name := [97], Typ := 1, Cls := 1, TTL := 60, RData := .a [10, 0, 0, 1] }

/-- A sample TXT record for the set-algebra witness. -/
def setSampleB : RR := { Name := [98], Typ := 16, Cls := 1, TTL := 60, RData := .txt [104] }

/-- C7 witness: a concrete set with a duplicate member. -/
theorem set_algebra_witness :
    ∃ u, unique [setSampleA, setSampleB, setSampleA] = some u ∧
      unique u = some u ∧ u.length ≤ ([setSampleA, setSampleB, setSampleA] : List RR).length ∧
      setAdd [setSampleA, setSampleB, setSampleA] [setSampleA, setSampleB, setSampleA]
        = some [setSampleA, setSampleB, setSampleA] :=
  set_algebra [setSampleA, setSampleB, setSampleA] (by unfold wfRR; decide)

/-- A token of the zone lexer as far as the modelled INITIAL-mode rules
produce them: domain names at the beginning of a line, BLANK_START for a
leading blank run, end-of-record, and the single-character fallback token
for input no pattern matches (scanner.l 320-328). -/
inductive Tok where
  | domainName (s : List Char)
  | blankStart
  | eor
  | chTok (c : Char)
  deriving DecidableEq, Repr

/-- The scanner state the modelled rules touch: the parenthesis flag, the
line/column counters, the source name and the optional error callback of
`lex` (scanner.l 29-47, 89-98). -/
structure ScanSt where
  inParen : Bool
  line : Nat
  column : Nat
  srcName : String
  errHandler : Option (String → Bool)

/-- The `source-name:line:column - message` format of `lex.Error`. -/
def lexErrorFmt (name : String) (line col : Nat) (e : String) : String :=
  name ++ ":" ++ toString line ++ ":" ++ toString col ++ " - " ++ e

/-- `lex.Error` (scanner.l 101-109): format the message with the source
position and consult the error callback; if it accepts, scanning continues
(`.ok`), otherwise the formatted error propagates as a panic (`.error`). -/
def lexError (st : ScanSt) (e : String) : Except String Unit :=
  let msg := lexErrorFmt st.srcName st.line st.column e
  match st.errHandler with
  | some h => if h msg then .ok () else .error msg
  | none => .error msg

/-- The `<*>\n|\r` action (scanner.l 190-193): an end-of-record token
unless the inside-parens flag is set, in which case the newline is
swallowed like plain whitespace. -/
def newlineAction (st : ScanSt) : ScanSt × Option Tok :=
  (st, if !st.inParen then some .eor else none)

/-- The `<*>\(` action (scanner.l 195-199): a lexical error if the flag is
already set (no nesting; with a recovering callback scanning continues),
then the flag is set; no token is emitted. -/
def lparenAction (st : ScanSt) : Except String (ScanSt × Option Tok) := do
  if st.inParen then lexError st "nested parenthesis" else pure ()
  return ({ st with inParen := true }, none)

/-- The `<*>\)` action (scanner.l 201-206): a lexical error if the flag is
not set, then the flag is cleared and an end-of-record token is emitted
exactly as for a real newline. -/
def rparenAction (st : ScanSt) : Except String (ScanSt × Option Tok) := do
  if !st.inParen then lexError st "enexpected \")\"" else pure ()
  return ({ st with inParen := false }, some .eor)

/-- Prepend an action's token, if any. -/
def pushTok : Option Tok → List Tok → List Tok
  | none, acc => acc
  | some t, acc => t :: acc

/-- Whitespace characters of the `[ \t]` character class. -/
def isWsChar (c : Char) : Bool := c = ' ' ∨ c = '\t'

/-- The `\n|\r` class. -/
def isNlChar (c : Char) : Bool := c = '\n' ∨ c = '\r'

/-- Letters and digits - the modelled subset of the `{domain-name}`
pattern (single labels without hyphens or dots). -/
def isLabelChar (c : Char) : Bool := c.isAlpha || c.isDigit

/-- `lex.getc`'s position bookkeeping (scanner.l 63-86): a newline starts
the next line, anything else advances the column. -/
def adv (st : ScanSt) (c : Char) : ScanSt :=
  if c = '\n' then { st with line := st.line + 1, column := 0 }
  else { st with column := st.column + 1 }

/-- Position bookkeeping over a consumed run. -/
def advMany (st : ScanSt) (cs : List Char) : ScanSt := cs.foldl adv st

/-- The INITIAL start condition of the scanner (scanner.l 171-328),
restricted to the rule subset its character classes cover here:
whitespace runs (ignored; `^[ \t]+$`-style end-of-line blanks also
ignored; a leading blank run at the beginning of a line is BLANK_START),
`;` comments to end of line, newline/parenthesis handling through the
actions above, `^{domain-name}` runs of label characters at the beginning
of a line, and the literal-byte fallback for anything else.  The `bol`
flag mirrors golex's `l.last == '\n' || l.last == 0` begin-of-line
condition.  Each iteration consumes at least one character, so
`input.length + 1` fuel always suffices. -/
def lexRunAux : Nat → ScanSt → Bool → List Char → List Tok → Except String (List Tok)
  | 0, _, _, _, _ => .error "lex - fuel exhausted"
  | _ + 1, _, _, [], acc => .ok acc.reverse
  | fuel + 1, st, bol, c :: rest, acc =>
    if isWsChar c then
      let run := (c :: rest).takeWhile isWsChar
      let rest1 := (c :: rest).dropWhile isWsChar
      let st1 := advMany st run
      match rest1 with
      | [] => lexRunAux fuel st1 false [] acc
      | d :: _ =>
        if isNlChar d then lexRunAux fuel st1 false rest1 acc
        else if d = ';' then
          let com := rest1.takeWhile (fun x => !isNlChar x)
          lexRunAux fuel (advMany st1 com) false (rest1.dropWhile (fun x => !isNlChar x)) acc
        else if bol then lexRunAux fuel st1 false rest1 (.blankStart :: acc)
        else lexRunAux fuel st1 false rest1 acc
    else if c = ';' then
      let com := (c :: rest).takeWhile (fun x => !isNlChar x)
      lexRunAux fuel (advMany st com) false ((c :: rest).dropWhile (fun x => !isNlChar x)) acc
    else if isNlChar c then
      let (st1, tk) := newlineAction (adv st c)
      lexRunAux fuel st1 true rest (pushTok tk acc)
    else if c = '(' then
      match lparenAction (adv st c) with
      | .error e => .error e
      | .ok (st1, tk) => lexRunAux fuel st1 false rest (pushTok tk acc)
    else if c = ')' then
      match rparenAction (adv st c) with
      | .error e => .error e
      | .ok (st1, tk) => lexRunAux fuel st1 false rest (pushTok tk acc)
    else if bol && isLabelChar c then
      let run := (c :: rest).takeWhile isLabelChar
      lexRunAux fuel (advMany st run) false ((c :: rest).dropWhile isLabelChar)
        (.domainName run :: acc)
    else
      lexRunAux fuel (adv st c) false rest (.chTok c :: acc)

/-- Run the modelled scanner from a fresh `newLex` state (scanner.l
89-98): line 1, column 0, begin-of-line. -/
def lexRun (name : String) (h : Option (String → Bool)) (input : List Char) :
    Except String (List Tok) :=
  lexRunAux (input.length + 1) ⟨false, 1, 0, name, h⟩ true input []

/-- C8: with the inside-parens flag set, a newline is swallowed (no
end-of-record token), `(` raises a lexical error, and `)` clears the flag
and emits end-of-record; with the flag clear, `)` raises a lexical error
and a newline emits end-of-record.  Consequently lexing
`foo ( 10\n 20 )\n` emits end-of-record only after the `)` (the embedded
newline produces no token; the two `eor` tokens stem from `)` and the
final newline). -/
theorem paren_continuation :
    (∀ st : ScanSt, st.inParen = true → newlineAction st = (st, none)) ∧
    (∀ st : ScanSt, st.inParen = false → newlineAction st = (st, some .eor)) ∧
    (∀ st : ScanSt, st.inParen = true → st.errHandler = none →
      lparenAction st = .error (lexErrorFmt st.srcName st.line st.column "nested parenthesis")) ∧
    (∀ st : ScanSt, st.inParen = true →
      rparenAction st = .ok ({ st with inParen := false }, some .eor)) ∧
    (∀ st : ScanSt, st.inParen = false → st.errHandler = none →
      rparenAction st = .error (lexErrorFmt st.srcName st.line st.column "enexpected \")\"")) ∧
    lexRun "test" none "foo ( 10\n 20 )\n".toList
      = .ok [.domainName ['f', 'o', 'o'], .chTok '1', .chTok '0', .blankStart,
             .chTok '2', .chTok '0', .eor, .eor] := by
  refine ⟨fun st h => ?_, fun st h => ?_, fun st h hh => ?_, fun st h => ?_,
    fun st h hh => ?_, ?_⟩
  · simp [newlineAction, h]
  · simp [newlineAction, h]
  · simp [lparenAction, lexError, h, hh, bind, Except.bind]
  · simp [rparenAction, h, bind, Except.bind, pure, Except.pure]
  · simp [rparenAction, lexError, h, hh, bind, Except.bind]
  · rfl

/-- C8 witness: the action clauses at concrete scanner states. -/
theorem paren_continuation_witness :
    newlineAction ⟨true, 2, 5, "f", none⟩ = (⟨true, 2, 5, "f", none⟩, none) ∧
    newlineAction ⟨false, 2, 5, "f", none⟩ = (⟨false, 2, 5, "f", none⟩, some .eor) ∧
    lparenAction ⟨true, 2, 5, "f", none⟩ = .error (lexErrorFmt "f" 2 5 "nested parenthesis") ∧
    rparenAction ⟨true, 2, 5, "f", none⟩ = .ok (⟨false, 2, 5, "f", none⟩, some .eor) ∧
    rparenAction ⟨false, 2, 5, "f", none⟩ = .error (lexErrorFmt "f" 2 5 "enexpected \")\"") :=
  ⟨paren_continuation.1 ⟨true, 2, 5, "f", none⟩ rfl,
   paren_continuation.2.1 ⟨false, 2, 5, "f", none⟩ rfl,
   paren_continuation.2.2.1 ⟨true, 2, 5, "f", none⟩ rfl rfl,
   paren_continuation.2.2.2.1 ⟨true, 2, 5, "f", none⟩ rfl,
   paren_continuation.2.2.2.2.1 ⟨false, 2, 5, "f", none⟩ rfl rfl⟩

/-- The observable outcome of a token action: a DECADIC token with its
parsed value, an IPV4 token with its (possibly nil) parsed address, or a
fatal panic with its message. -/
inductive ActResult where
  | decadic (v : Nat)
  | ipv4Tok (ip : Option (List Nat))
  | fatal (msg : String)
  deriving DecidableEq, Repr

/-- Modelled from the Go standard library: `strconv.Atoui64` on the
lexer's `[0-9]+` buffer - the digit value, or a range error when it
exceeds the unsigned 64-bit maximum. -/
def atoui64 (buf : List Char) : Except String Nat :=
  if buf = [] ∨ ¬ buf.all Char.isDigit then .error "invalid syntax"
  else
    let v := buf.foldl (fun acc c => acc * 10 + (c.toNat - 48)) 0
    if v < 18446744073709551616 then .ok v else .error "value out of range"

/-- Modelled from the Go standard library: `net.ParseIP` restricted to the
dotted-quad shapes the `<ipv4>{ipv4}` pattern can produce (four 1-3 digit
components): parsing fails exactly when a component exceeds 255; a parsed
address is returned in the 16-byte `net.IPv4` form. -/
def goParseIP4 (buf : List Char) : Option (List Nat) :=
  let parts := buf.splitOn '.'
  if parts.length = 4 ∧ parts.all (fun p => p ≠ [] ∧ p.length ≤ 3 ∧ p.all Char.isDigit) then
    let vals := parts.map (fun p => p.foldl (fun acc c => acc * 10 + (c.toNat - 48)) 0)
    if vals.all (· ≤ 255) then
      some (goIPv4 (vals.getD 0 0) (vals.getD 1 0) (vals.getD 2 0) (vals.getD 3 0))
    else none
  else none

/-- The `<rrHead,num>[0-9]+` action (scanner.l 224-230): a failed
`strconv.Atoui64` panics directly with `invalid number %q` - this error is
NOT routed through `lex.Error`, so it carries no source position and the
error callback is never consulted (the scanner state is unused). -/
def numberAction (_st : ScanSt) (buf : List Char) : ActResult :=
  match atoui64 buf with
  | .ok v => .decadic v
  | .error _ => .fatal ("invalid number \"" ++ String.mk buf ++ "\"")

/-- The `<ipv4>{ipv4}` action (scanner.l 286-292): a failed `net.ParseIP`
goes through `lex.Error` (position-formatted message, callback consulted);
if the callback recovers, the action still returns a `tIPV4` token whose
payload is the nil IP. -/
def ipv4Action (st : ScanSt) (buf : List Char) : ActResult :=
  match goParseIP4 buf with
  | some ip => .ipv4Tok (some ip)
  | none =>
    match lexError st ("invalid IP \"" ++ String.mk buf ++ "\"") with
    | .ok _ => .ipv4Tok none
    | .error m => .fatal m

/-- A scanner state whose error callback classifies every error as
recoverable. -/
def stRecovering : ScanSt := ⟨false, 3, 7, "zone.db", some (fun _ => true)⟩

/-- C9 counterexample: the numeric-overflow failure does NOT go through
the `source-name:line:column - message` error path and does NOT consult
the error callback - even with a callback that classifies every error as
recoverable, the overflowing token `18446744073709551616` is a fatal
panic, and its message lacks the position format. -/
theorem number_overflow_bypasses_error_path :
    numberAction stRecovering "18446744073709551616".toList
      = .fatal "invalid number \"18446744073709551616\"" ∧
    "invalid number \"18446744073709551616\""
      ≠ lexErrorFmt "zone.db" 3 7 "invalid number \"18446744073709551616\"" := by
  constructor
  · rfl
  · decide

/-- C9 (amended): an IPv4 literal matching the character class but
failing address parsing is fatal to that token through `lex.Error` - the
message is formatted `source-name:line:column - message` and the optional
callback is consulted (a recovering callback turns it into a nil-IP
token); a numeric token that overflows, however, panics directly with
`invalid number %q`, bypassing the position format and the callback. -/
theorem lexical_error_paths :
    (∀ (st : ScanSt) (buf : List Char), goParseIP4 buf = none → st.errHandler = none →
      ipv4Action st buf
        = .fatal (lexErrorFmt st.srcName st.line st.column
            ("invalid IP \"" ++ String.mk buf ++ "\""))) ∧
    (∀ (st : ScanSt) (buf : List Char) (h : String → Bool),
      goParseIP4 buf = none → st.errHandler = some h →
      h (lexErrorFmt st.srcName st.line st.column ("invalid IP \"" ++ String.mk buf ++ "\""))
        = true →
      ipv4Action st buf = .ipv4Tok none) ∧
    (∀ (st : ScanSt) (buf : List Char) (e : String), atoui64 buf = .error e →
      numberAction st buf = .fatal ("invalid number \"" ++ String.mk buf ++ "\"")) := by
  refine ⟨fun st buf hp hh => ?_, fun st buf h hp hh hrec => ?_, fun st buf e ha => ?_⟩
  · simp [ipv4Action, lexError, hp, hh]
  · simp [ipv4Action, lexError, hp, hh, hrec]
  · simp [numberAction, ha]

/-- C9 witness: concrete instances - the out-of-range literal
`300.1.2.3` through the error path with and without a callback, and the
overflowing number panicking directly. -/
theorem lexical_error_paths_witness :
    ipv4Action ⟨false, 3, 7, "zone.db", none⟩ "300.1.2.3".toList
      = .fatal (lexErrorFmt "zone.db" 3 7 "invalid IP \"300.1.2.3\"") ∧
    ipv4Action stRecovering "300.1.2.3".toList = .ipv4Tok none ∧
    numberAction stRecovering "18446744073709551617".toList
      = .fatal "invalid number \"18446744073709551617\"" :=
  ⟨lexical_error_paths.1 ⟨false, 3, 7, "zone.db", none⟩ "300.1.2.3".toList (by decide) rfl,
   lexical_error_paths.2.1 stRecovering "300.1.2.3".toList (fun _ => true) (by decide) rfl rfl,
   lexical_error_paths.2.2 stRecovering "18446744073709551617".toList "value out of range"
     rfl⟩

/-- `Type.String` with the type-mnemonic table `typeStr`
(rr.go 1144-1178): a type code with no entry panics (`none`). -/
def typeString : Nat → Option String
  | 1 => some "A"
  | 28 => some "AAAA"
  | 5 => some "CNAME"
  | 48 => some "DNSKEY"
  | 43 => some "DS"
  | 13 => some "HINFO"
  | 7 => some "MB"
  | 3 => some "MD"
  | 4 => some "MF"
  | 8 => some "MG"
  | 14 => some "MINFO"
  | 9 => some "MR"
  | 15 => some "MX"
  | 2 => some "NS"
  | 47 => some "NSEC"
  | 50 => some "NSEC3"
  | 51 => some "NSEC3PARAM"
  | 10 => some "NULL"
  | 12 => some "PTR"
  | 46 => some "RRSIG"
  | 6 => some "SOA"
  | 16 => some "TXT"
  | 11 => some "WKS"
  | 65280 => some "NODATA"
  | 65281 => some "NXDOMAIN"
  | _ => none

/-- `Class.String` with the class-mnemonic table `classStr`
(rr.go 146-160): an unknown class panics (`none`). -/
def classString : Nat → Option String
  | 0 => some ""
  | 1 => some "IN"
  | 2 => some "CS"
  | 3 => some "CH"
  | 4 => some "HS"
  | _ => none

/-- A Go string from its bytes. -/
def strOfBytes (s : List Nat) : String := String.mk (s.map Char.ofNat)

/-- Two lowercase hex digits of a byte, as in `encoding/hex`. -/
def hexByte (n : Nat) : String := String.mk [hexDigit (n / 16 % 16), hexDigit (n % 16)]

/-- Modelled from the Go standard library: `hex.EncodeToString`. -/
def hexEncodeStr (l : List Nat) : String := String.join (l.map hexByte)

/-- `fmt`'s `% 02x` rendering of a byte slice: space-separated hex
pairs. -/
def hexSpaced (l : List Nat) : String := String.intercalate " " (l.map hexByte)

/-- Modelled from the spec: `strutil.Base64Encode` of the external strutil
library - standard padded base64, used for the DNSKEY key and the RRSIG
signature. -/
def b64Char (n : Nat) : Char :=
  "ABCDEFGHIJKLMNOPQRSTUVWXYZabcdefghijklmnopqrstuvwxyz0123456789+/".toList.getD n '='

/-- Padded base64 of a byte list. -/
def base64Enc : List Nat → String
  | [] => ""
  | [a] => String.mk [b64Char (a / 4), b64Char (a % 4 * 16)] ++ "=="
  | [a, b] =>
      String.mk [b64Char (a / 4), b64Char (a % 4 * 16 + b / 16), b64Char (b % 16 * 4)] ++ "="
  | a :: b :: c :: rest =>
      String.mk [b64Char (a / 4), b64Char (a % 4 * 16 + b / 16),
        b64Char (b % 16 * 4 + c / 64), b64Char (c % 64)] ++ base64Enc rest

/-- Modelled from the spec: `strutil.Base32ExtEncode` - padded
base32hex (RFC 4648 §7), used for the NSEC3 next hashed owner name. -/
def b32Char (n : Nat) : Char := "0123456789ABCDEFGHIJKLMNOPQRSTUV".toList.getD n '?'

/-- One input block (up to 5 bytes) of base32hex with padding. -/
def base32Chunk (bs : List Nat) : String :=
  let bits := bs.length * 8
  let outLen := (bits + 4) / 5
  let n := bs.foldl (fun acc b => acc * 256 + b % 256) 0
  let shifted := n * 2 ^ (outLen * 5 - bits)
  String.mk ((List.range outLen).map fun i => b32Char (shifted / 2 ^ ((outLen - 1 - i) * 5) % 32))
    ++ String.mk (List.replicate (8 - outLen) '=')

/-- Padded base32hex of a byte list (fuel = block count bound). -/
def base32ExtEncAux : Nat → List Nat → String
  | _, [] => ""
  | 0, _ => ""
  | fuel + 1, bs => base32Chunk (bs.take 5) ++ base32ExtEncAux fuel (bs.drop 5)

/-- Padded base32hex of a byte list. -/
def base32ExtEnc (bs : List Nat) : String := base32ExtEncAux bs.length bs

/-- The bit positions set in a byte, most significant first. -/
def bitsOfByte (b : Nat) : List Nat :=
  (List.range 8).filterMap fun i => if b / 2 ^ (7 - i) % 2 = 1 then some i else none

/-- Modelled from the spec: `rr.TypesDecode` is repository code not under
src/ (only its caller `NSEC3.String` is); it parses the RFC 5155 type bit
maps - (window number, length, bitmap bytes) blocks - into the set type
codes, failing on a malformed block. -/
def typesDecodeAux : Nat → List Nat → Except String (List Nat)
  | _, [] => .ok []
  | 0, _ => .error "TypesDecode - malformed"
  | _ + 1, [_] => .error "TypesDecode - malformed"
  | fuel + 1, win :: len :: rest =>
    if len = 0 ∨ rest.length < len then .error "TypesDecode - malformed"
    else do
      let tail ← typesDecodeAux fuel (rest.drop len)
      .ok (((List.range len).flatMap fun bi =>
        (bitsOfByte (rest.getD bi 0)).map fun i => win * 256 + bi * 8 + i) ++ tail)

/-- Modelled from the spec: `rr.TypesDecode` on a whole bitmap. -/
def typesDecode (bm : List Nat) : Except String (List Nat) :=
  typesDecodeAux bm.length bm

/-- Modelled from the spec: `rr.TypesString` - space-separated type
mnemonics; an unknown code panics through `Type.String`. -/
def typesString (ts : List Nat) : Option String := do
  let names ← ts.mapM typeString
  return String.intercalate " " names

/-- Modelled from the Go standard library: the civil date of a day count
since the Unix epoch. -/
def civilFromDays (z0 : Nat) : Nat × Nat × Nat :=
  let z := z0 + 719468
  let era := z / 146097
  let doe := z % 146097
  let yoe := (doe - doe / 1460 + doe / 36524 - doe / 146097) / 365
  let y := yoe + era * 400
  let doy := doe - (365 * yoe + yoe / 4 - yoe / 100)
  let mp := (5 * doy + 2) / 153
  let d := doy - (153 * mp + 2) / 5 + 1
  let m := if mp < 10 then mp + 3 else mp - 9
  (if m ≤ 2 then y + 1 else y, m, d)

/-- Two-digit zero-padded decimal. -/
def pad2 (n : Nat) : String := if n < 10 then "0" ++ toString n else toString n

/-- `time.SecondsToUTC(..).Format(timeLayout)` with the source's
`timeLayout = "20060201150405"` (rr.go 31): in Go reference-time notation
`2006` is the year, `02` the DAY and `01` the month, so the rendered
order is year, day, month, hour, minute, second. -/
def rrsigTimeString (secs : Nat) : String :=
  let days := secs / 86400
  let rem := secs % 86400
  let ymd := civilFromDays days
  toString ymd.1 ++ pad2 ymd.2.2 ++ pad2 ymd.2.1 ++ pad2 (rem / 3600)
    ++ pad2 (rem % 3600 / 60) ++ pad2 (rem % 60)

/-- `NSEC3PARAM.String` (rr.go 569-575): hex salt, `-` when empty. -/
def nsec3paramString (ha fl it : Nat) (salt : List Nat) : String :=
  let s := hexEncodeStr salt
  toString ha ++ " " ++ toString fl ++ " " ++ toString it ++ " " ++
    (if s = "" then "-" else s)

/-- `strings.Replace(s, quote, backslash-quote, -1)` of `TXT.String`. -/
def txtEscape (s : List Nat) : String :=
  String.join (s.map fun c => if c = 34 then "\\\"" else String.mk [Char.ofNat c])

/-- The per-variant `String` methods of rr.go; `none` models a panic
(`Type.String` on an unmapped covered type in NODATA/RRSIG, `TypesDecode`
failure or unmapped bitmap type in NSEC3). -/
def rdataString : RData → Option String
  | .a ip => some (ipStr ip)
  | .aaaa ip => some (ipStr ip)
  | .cname nm => some (strOfBytes nm)
  | .dnskey fl pr al key =>
      some (toString fl ++ " " ++ toString pr ++ " " ++ toString al ++ " " ++ base64Enc key)
  | .ds kt al dt dg =>
      some (toString kt ++ " " ++ toString al ++ " " ++ toString dt ++ " " ++ hexEncodeStr dg)
  | .mx pref ex => some (toString pref ++ " " ++ strOfBytes ex)
  | .nodata t => typeString t
  | .nxdomain => some ""
  | .ns nm => some (strOfBytes nm)
  | .nsec3 ha fl it salt next bm => do
      let ts ← match typesDecode bm with
        | .ok ts => some ts
        | .error _ => none
      let tss ← typesString ts
      return nsec3paramString ha fl it salt ++ " " ++ base32ExtEnc next ++ " " ++ tss
  | .nsec3param ha fl it salt => some (nsec3paramString ha fl it salt)
  | .ptr nm => some (strOfBytes nm)
  | .rrsig tc al lb ttl ex inc kt nm sig => do
      let tcs ← typeString tc
      return tcs ++ " " ++ toString al ++ " " ++ toString lb ++ " " ++ toString ttl ++ " " ++
        rrsigTimeString ex ++ " " ++ rrsigTimeString inc ++ " " ++ toString kt ++ " " ++
        strOfBytes nm ++ " " ++ base64Enc sig
  | .soa mn rn se re rt ex mi =>
      some (strOfBytes mn ++ " " ++ strOfBytes rn ++ " " ++ toString se ++ " " ++ toString re
        ++ " " ++ toString rt ++ " " ++ toString ex ++ " " ++ toString mi)
  | .txt s => some ("\"" ++ txtEscape s ++ "\"")
  | .rdata d => some ("\\# " ++ toString d.length ++ " " ++ hexSpaced d)

/-- `RR.String` (rr.go 639-641): `fmt.Sprintf("%s\t%s\t%d\t%s %s", Name,
Class, TTL, Type, RData)` - the Class, Type and RData `String` methods run
in that order and a panic in any of them propagates (`none`). -/
def rrString (r : RR) : Option String := do
  let cs ← classString r.Cls
  let ts ← typeString r.Typ
  let rs ← rdataString r.RData
  return strOfBytes r.Name ++ "\t" ++ cs ++ "\t" ++ toString r.TTL ++ "\t" ++ ts ++ " " ++ rs

/-- A record whose type code 47 (NSEC) is absent from the decode dispatch
table - so it decodes as opaque fallback RDATA - yet present in the
type-mnemonic table. -/
def nsecFallbackRec : RR :=
  { Name := [120], Typ := 47, Cls := 1, TTL := 0, RData := .rdata [1, 2, 3] }

/-- C10 counterexample: type code 47 is an unrecognized wire type for
`RR.Decode` (it maps to the opaque fallback variant), yet `Type.String`
does not panic on it and `RR.String` renders the record as zone text -
refuting the claim that every code the decoder maps to the fallback
variant makes `Type.String`/`RR.String` panic and that such records
cannot be rendered. -/
theorem nsec_renders_despite_fallback :
    rrSelect 47 = RTag.rdata ∧ typeString 47 = some "NSEC" ∧
    rrString nsecFallbackRec = some "x\tIN\t0\tNSEC \\# 3 01 02 03" := ⟨rfl, rfl, rfl⟩

/-- C10 (amended): `Type.String` is partial - for every type code without
an entry in the type-mnemonic table it panics, such codes are also absent
from the decode dispatch (they decode as the opaque fallback and
round-trip on the wire), and `RR.String` on any record with such a type
code panics instead of returning a presentation string.  (Codes absent
from the dispatch table but present in the mnemonic table - MD, MF, MB,
MG, MR, NULL, WKS, HINFO, MINFO, NSEC - decode as opaque fallback yet
still render.) -/
theorem unknown_mnemonic_panics (t : Nat) (h : typeString t = none) :
    rrSelect t = RTag.rdata ∧ (∀ r : RR, r.Typ = t → rrString r = none) := by
  constructor
  · refine rrSelect_unknown t ?_
    intro hmem
    simp only [List.mem_cons, List.not_mem_nil, or_false] at hmem
    rcases hmem with rfl | rfl | rfl | rfl | rfl | rfl | rfl | rfl | rfl | rfl | rfl |
      rfl | rfl | rfl | rfl <;> exact absurd h (by decide)
  · intro r hr
    cases hc : classString r.Cls with
    | none => simp [rrString, hc, bind, Option.bind]
    | some cs => simp [rrString, hc, bind, Option.bind, hr, h]

/-- C10 witness: type code 999 has no mnemonic; it selects the opaque
fallback and no record with it can be rendered. -/
theorem unknown_mnemonic_panics_witness :
    rrSelect 999 = RTag.rdata ∧ (∀ r : RR, r.Typ = 999 → rrString r = none) :=
  unknown_mnemonic_panics 999 rfl
